import Mathlib

/-!
Verification development for the complexity-adaptive podcast pipeline of
`github_podcast_generator.py`.

The development shallowly embeds the parts of the program that the spec
describes: the complexity classifier (`_assess_repository_complexity`), the
prompt-template selection in `generate_podcast_script`, the stub-script
fallback (`_generate_stub_podcast_script`), and the segmentation,
sanitization and audio-assembly loop of `generate_podcast_audio` together
with the pydub `strip_silence` call it ends with.

Modelling conventions:
* Python machine floats are idealized as real numbers (`ℝ`); the score
  formula uses `Real.logb 10` for `math.log10`.
* Python strings are Lean `String`s; the regex substitutions of the
  sanitization pipeline are implemented as recursive functions over
  `List Char`, each one a direct transcription of the corresponding
  `re.sub` call, including scan order, anchoring, greediness and
  backtracking behaviour (argued step by step in the doc comments).
* Audio (`pydub.AudioSegment`) is idealized as a list of per-millisecond
  sample amplitudes (`List ℤ`); `rms`-versus-threshold comparisons are
  carried out exactly, after algebraically eliminating the float
  `10^((dBFS-16)/20)` factor by raising both sides to the fifth power.
* External collaborators (gTTS synthesis, mp3 decode, mp3 export) are
  oracles passed in as function arguments returning `Option`.
-/

namespace Podcast

/-! ## Complexity classifier (`_assess_repository_complexity`) -/

/-- Metrics bundle collected before `_assess_repository_complexity` runs:
`num_files = len(self.code_files)`, `code_chars = self.total_code_chars_collected`,
`num_langs = len(self.repo_summary["languages"])`, `readme_len = len(self.readme_content)`. -/
structure RepositoryMetrics where
  fileCount : ℕ
  codeCharCount : ℕ
  languageCount : ℕ
  readmeCharCount : ℕ
deriving DecidableEq

/-- Complexity levels, the strings `'simple' | 'medium' | 'complex'` in the source. -/
inductive ComplexityLevel where
  | simple
  | medium
  | complex
deriving DecidableEq

/-- Scalar score computed by `_assess_repository_complexity`:
`log10(code_chars/1000)*2.5` when `code_chars > 1000`, plus
`log10(num_files/10)*1.5` when `num_files > 10`, plus
`max(0, num_langs - 1)*0.5`, minus `0.5` when
`readme_len < 200 and code_chars > 10000`, else plus `0.5` when
`readme_len > 5000`. -/
noncomputable def complexityScore (m : RepositoryMetrics) : ℝ :=
  (if 1000 < m.codeCharCount then
    Real.logb 10 ((m.codeCharCount : ℝ) / 1000) * 2.5 else 0)
  + (if 10 < m.fileCount then
    Real.logb 10 ((m.fileCount : ℝ) / 10) * 1.5 else 0)
  + ((max 0 ((m.languageCount : ℤ) - 1) : ℤ) : ℝ) * 0.5
  + (if m.readmeCharCount < 200 ∧ 10000 < m.codeCharCount then -0.5
     else if 5000 < m.readmeCharCount then 0.5 else 0)

open Classical in
/-- Final classification of `_assess_repository_complexity`:
`score < 4.0 → 'simple'`, `score > 9.0 → 'complex'`, otherwise `'medium'`. -/
noncomputable def assessRepositoryComplexity (m : RepositoryMetrics) : ComplexityLevel :=
  if complexityScore m < 4.0 then .simple
  else if 9.0 < complexityScore m then .complex
  else .medium

/-- The two fixed prompt templates of `generate_podcast_script`
(`_get_detailed_prompt` / `_get_concise_prompt`). -/
inductive PromptTemplate where
  | concise
  | detailed
deriving DecidableEq

/-- Template selection in `generate_podcast_script`:
`if self.complexity_level == 'complex'` take the detailed prompt,
otherwise (simple or medium) the concise one. -/
def selectPromptTemplate (level : ComplexityLevel) : PromptTemplate :=
  if level = .complex then .detailed else .concise

end Podcast

namespace Podcast

/-! ## Theorems about the classifier (claims C1, C7, C8) -/

/-- Helper: the logarithmic code-character term is nonnegative whenever active. -/
theorem codeTerm_nonneg (c : ℕ) (h : 1000 < c) :
    0 ≤ Real.logb 10 ((c : ℝ) / 1000) * 2.5 := by
  have h1 : (1 : ℝ) ≤ (c : ℝ) / 1000 := by
    rw [le_div_iff₀ (by norm_num : (0:ℝ) < 1000)]
    · norm_num
      exact_mod_cast h.le
  have := Real.logb_nonneg (b := 10) (by norm_num) h1
  nlinarith

/-- Helper: the logarithmic file-count term is nonnegative whenever active. -/
theorem fileTerm_nonneg (f : ℕ) (h : 10 < f) :
    0 ≤ Real.logb 10 ((f : ℝ) / 10) * 1.5 := by
  have h1 : (1 : ℝ) ≤ (f : ℝ) / 10 := by
    rw [le_div_iff₀ (by norm_num : (0:ℝ) < 10)]
    · norm_num
      exact_mod_cast h.le
  have := Real.logb_nonneg (b := 10) (by norm_num) h1
  nlinarith

/-- C1 counterexample: the score is NOT monotone in `codeCharCount`.
Raising `codeCharCount` from 10000 to 10100 while `readmeCharCount = 0`
newly triggers the `readme_len < 200 and code_chars > 10000` penalty of
`-0.5`, which outweighs the logarithmic gain of `2.5*log10(10.1/10) ≈ 0.011`,
so the score strictly drops. -/
theorem complexityScore_not_monotone_in_code :
    complexityScore ⟨0, 10100, 0, 0⟩ < complexityScore ⟨0, 10000, 0, 0⟩ := by
  have hlog10pos : (0:ℝ) < Real.log 10 := Real.log_pos (by norm_num)
  have hkey : Real.logb 10 10.1 < 6 / 5 := by
    have hpow : Real.log ((10.1 : ℝ) ^ (5 : ℕ)) < Real.log ((10 : ℝ) ^ (6 : ℕ)) := by
      apply Real.log_lt_log (by positivity)
      norm_num
    rw [Real.log_pow, Real.log_pow] at hpow
    rw [Real.logb, div_lt_iff₀ hlog10pos]
    push_cast at hpow
    nlinarith
  have h1 : complexityScore ⟨0, 10000, 0, 0⟩ = Real.logb 10 10 * 2.5 := by
    simp only [complexityScore]
    norm_num
  have h2 : complexityScore ⟨0, 10100, 0, 0⟩ = Real.logb 10 10.1 * 2.5 + -0.5 := by
    simp only [complexityScore]
    norm_num
  have hself : Real.logb 10 (10:ℝ) = 1 := Real.logb_self_eq_one (by norm_num)
  rw [h1, h2, hself]
  nlinarith

/-- C1 (amended): the score is monotone in `fileCount` and in `languageCount`
unconditionally, and monotone in `codeCharCount` whenever
`readmeCharCount ≥ 200` (so that the low-README penalty cannot newly fire);
the unrestricted `codeCharCount` claim fails
(`complexityScore_not_monotone_in_code`). -/
theorem complexityScore_monotone :
    (∀ (m : RepositoryMetrics) (f' : ℕ), m.fileCount ≤ f' →
      complexityScore m ≤ complexityScore { m with fileCount := f' }) ∧
    (∀ (m : RepositoryMetrics) (l' : ℕ), m.languageCount ≤ l' →
      complexityScore m ≤ complexityScore { m with languageCount := l' }) ∧
    (∀ (m : RepositoryMetrics) (c' : ℕ), 200 ≤ m.readmeCharCount →
      m.codeCharCount ≤ c' →
      complexityScore m ≤ complexityScore { m with codeCharCount := c' }) := by
  refine ⟨?_, ?_, ?_⟩
  · intro m f' hf
    have hterm : (if 10 < m.fileCount then
        Real.logb 10 ((m.fileCount : ℝ) / 10) * 1.5 else 0) ≤
        (if 10 < f' then Real.logb 10 ((f' : ℝ) / 10) * 1.5 else 0) := by
      by_cases h1 : 10 < m.fileCount
      · have h2 : 10 < f' := lt_of_lt_of_le h1 hf
        simp only [h1, h2, if_true]
        have hmono : Real.logb 10 ((m.fileCount : ℝ) / 10) ≤
            Real.logb 10 ((f' : ℝ) / 10) := by
          apply Real.logb_le_logb_of_le (by norm_num)
          · positivity
          · apply div_le_div_of_nonneg_right ?_ (by norm_num)
            exact_mod_cast hf
        nlinarith
      · simp only [h1, if_false]
        by_cases h2 : 10 < f'
        · simp only [h2, if_true]
          exact fileTerm_nonneg f' h2
        · simp [h2]
    simp only [complexityScore]
    gcongr
  · intro m l' hl
    have hterm : ((max 0 ((m.languageCount : ℤ) - 1) : ℤ) : ℝ) * 0.5 ≤
        ((max 0 ((l' : ℤ) - 1) : ℤ) : ℝ) * 0.5 := by
      have h : (max 0 ((m.languageCount : ℤ) - 1)) ≤ (max 0 ((l' : ℤ) - 1)) := by
        apply max_le_max le_rfl
        omega
      have h2 : ((max 0 ((m.languageCount : ℤ) - 1) : ℤ) : ℝ) ≤
          ((max 0 ((l' : ℤ) - 1) : ℤ) : ℝ) := by exact_mod_cast h
      nlinarith
    simp only [complexityScore]
    gcongr
  · intro m c' hr hc
    have hterm : (if 1000 < m.codeCharCount then
        Real.logb 10 ((m.codeCharCount : ℝ) / 1000) * 2.5 else 0) ≤
        (if 1000 < c' then Real.logb 10 ((c' : ℝ) / 1000) * 2.5 else 0) := by
      by_cases h1 : 1000 < m.codeCharCount
      · have h2 : 1000 < c' := lt_of_lt_of_le h1 hc
        simp only [h1, h2, if_true]
        have hmono : Real.logb 10 ((m.codeCharCount : ℝ) / 1000) ≤
            Real.logb 10 ((c' : ℝ) / 1000) := by
          apply Real.logb_le_logb_of_le (by norm_num)
          · positivity
          · apply div_le_div_of_nonneg_right ?_ (by norm_num)
            exact_mod_cast hc
        nlinarith
      · simp only [h1, if_false]
        by_cases h2 : 1000 < c'
        · simp only [h2, if_true]
          exact codeTerm_nonneg c' h2
        · simp [h2]
    have hpen : (if m.readmeCharCount < 200 ∧ 10000 < m.codeCharCount then (-0.5 : ℝ)
        else if 5000 < m.readmeCharCount then 0.5 else 0) =
        (if m.readmeCharCount < 200 ∧ 10000 < c' then (-0.5 : ℝ)
        else if 5000 < m.readmeCharCount then 0.5 else 0) := by
      have hnot : ¬ m.readmeCharCount < 200 := by omega
      simp [hnot]
    simp only [complexityScore]
    rw [hpen]
    gcongr

/-- C1 witness: the amended monotonicity applied at concrete metrics. -/
theorem complexityScore_monotone_witness :
    complexityScore ⟨3, 500, 2, 300⟩ ≤
      complexityScore { (⟨3, 500, 2, 300⟩ : RepositoryMetrics) with codeCharCount := 900 } :=
  complexityScore_monotone.2.2 ⟨3, 500, 2, 300⟩ 900 (by norm_num) (by norm_num)

end Podcast

namespace Podcast

/-- C7: threshold boundaries. A bundle with 9 languages (all other terms
inactive) scores exactly `4.0` and classifies as Medium, not Simple; one
with 19 languages scores exactly `9.0` and classifies as Medium, not
Complex; and in general `score < 4.0` gives Simple, `score > 9.0` gives
Complex, and everything in between gives Medium. -/
theorem assessRepositoryComplexity_boundaries :
    complexityScore ⟨0, 0, 9, 300⟩ = 4.0 ∧
    assessRepositoryComplexity ⟨0, 0, 9, 300⟩ = .medium ∧
    complexityScore ⟨0, 0, 19, 300⟩ = 9.0 ∧
    assessRepositoryComplexity ⟨0, 0, 19, 300⟩ = .medium ∧
    (∀ m : RepositoryMetrics,
      (assessRepositoryComplexity m = .simple ↔ complexityScore m < 4.0) ∧
      (assessRepositoryComplexity m = .complex ↔ 9.0 < complexityScore m) ∧
      (assessRepositoryComplexity m = .medium ↔
        4.0 ≤ complexityScore m ∧ complexityScore m ≤ 9.0)) := by
  have h4 : complexityScore ⟨0, 0, 9, 300⟩ = 4.0 := by
    simp only [complexityScore]
    norm_num
  have h9 : complexityScore ⟨0, 0, 19, 300⟩ = 9.0 := by
    simp only [complexityScore]
    norm_num
  refine ⟨h4, ?_, h9, ?_, ?_⟩
  · simp only [assessRepositoryComplexity, h4]
    norm_num
  · simp only [assessRepositoryComplexity, h9]
    norm_num
  · intro m
    rcases lt_trichotomy (complexityScore m) 4.0 with hlt | heq | hgt4
    · have hcls : assessRepositoryComplexity m = .simple := by
        simp [assessRepositoryComplexity, hlt]
      refine ⟨by simp [hcls, hlt], ?_, ?_⟩
      · rw [hcls]
        constructor
        · intro h
          cases h
        · intro h
          linarith
      · rw [hcls]
        constructor
        · intro h
          cases h
        · intro h
          linarith [h.1]
    · have hcls : assessRepositoryComplexity m = .medium := by
        simp [assessRepositoryComplexity, heq]
        norm_num
      refine ⟨?_, ?_, by rw [hcls, heq]; norm_num⟩
      · rw [hcls]
        constructor
        · intro h
          cases h
        · intro h
          rw [heq] at h
          norm_num at h
      · rw [hcls]
        constructor
        · intro h
          cases h
        · intro h
          rw [heq] at h
          norm_num at h
    · by_cases hgt9 : 9.0 < complexityScore m
      · have hcls : assessRepositoryComplexity m = .complex := by
          have : ¬ complexityScore m < 4.0 := by linarith
          simp [assessRepositoryComplexity, this, hgt9]
        refine ⟨?_, by simp [hcls, hgt9], ?_⟩
        · rw [hcls]
          constructor
          · intro h
            cases h
          · intro h
            linarith
        · rw [hcls]
          constructor
          · intro h
            cases h
          · intro h
            linarith [h.2]
      · have hcls : assessRepositoryComplexity m = .medium := by
          have h4 : ¬ complexityScore m < 4.0 := by linarith
          simp [assessRepositoryComplexity, h4, hgt9]
        refine ⟨?_, ?_, ?_⟩
        · rw [hcls]
          constructor
          · intro h
            cases h
          · intro h
            linarith
        · rw [hcls]
          constructor
          · intro h
            cases h
          · intro h
            exact absurd h hgt9
        · rw [hcls]
          simp only [true_iff]
          exact ⟨by linarith, le_of_not_lt hgt9⟩

/-- C8: the template selector is the pure total mapping
Complex ↦ Detailed, Simple ↦ Concise, Medium ↦ Concise; composed with the
classifier it picks the detailed template exactly for bundles classified
Complex, for every metrics bundle. -/
theorem selectPromptTemplate_contract :
    selectPromptTemplate .complex = .detailed ∧
    selectPromptTemplate .simple = .concise ∧
    selectPromptTemplate .medium = .concise ∧
    (∀ m : RepositoryMetrics,
      (selectPromptTemplate (assessRepositoryComplexity m) = .detailed ↔
        assessRepositoryComplexity m = .complex) ∧
      (selectPromptTemplate (assessRepositoryComplexity m) = .concise ↔
        assessRepositoryComplexity m ≠ .complex)) := by
  refine ⟨rfl, rfl, rfl, ?_⟩
  intro m
  cases h : assessRepositoryComplexity m <;> simp [selectPromptTemplate]

end Podcast

namespace Podcast

/-! ## Text model: Python whitespace, `str.strip`, `str.splitlines` -/

/-- Characters matched by Python's `\s` (for `str` patterns) and counted as
whitespace by `str.strip()` / `str.isspace()`: the ASCII whitespace and
separator controls plus the Unicode space separators. -/
def isPyWs (c : Char) : Bool :=
  c = ' ' || c = '\t' || c = '\n' || c = '\r' || c = '\x0b' || c = '\x0c' ||
  c = '\x1c' || c = '\x1d' || c = '\x1e' || c = '\x1f' || c = '\x85' || c = '\xa0' ||
  c = '\u1680' || ('\u2000' ≤ c && c ≤ '\u200a') || c = '\u2028' || c = '\u2029' ||
  c = '\u202f' || c = '\u205f' || c = '\u3000'

/-- Line terminators recognized by Python's `str.splitlines()`. -/
def isLineTerm (c : Char) : Bool :=
  c = '\n' || c = '\r' || c = '\x0b' || c = '\x0c' || c = '\x1c' || c = '\x1d' ||
  c = '\x1e' || c = '\x85' || c = '\u2028' || c = '\u2029'

/-- Python `str.strip()`: drop leading and trailing whitespace. -/
def pyStrip (l : List Char) : List Char :=
  ((l.dropWhile isPyWs).reverse.dropWhile isPyWs).reverse

/-- Worker for `pySplitlines`: walks the string, splitting at terminators
and treating `\r\n` as a single terminator; a terminator at the very end
opens no further line.  Fueled with the string length (each step consumes
at least one character). -/
def splitlinesGo : ℕ → List Char → List Char → List (List Char)
  | 0, cur, _ => [cur.reverse]
  | _ + 1, cur, [] => [cur.reverse]
  | fuel + 1, cur, c :: rest =>
    if isLineTerm c then
      let rest2 := if c = '\r' ∧ rest.head? = some '\n' then rest.tail else rest
      if rest2.isEmpty then [cur.reverse] else cur.reverse :: splitlinesGo fuel [] rest2
    else splitlinesGo fuel (c :: cur) rest

/-- Python `str.splitlines()`; the empty string yields no lines. -/
def pySplitlines (l : List Char) : List (List Char) :=
  if l.isEmpty then [] else splitlinesGo l.length [] l

/-- Python `"\n".join(...)`. -/
def joinWithNewline : List (List Char) → List Char
  | [] => []
  | [x] => x
  | x :: xs => x ++ '\n' :: joinWithNewline xs

/-! ## Sanitization pipeline of `generate_podcast_audio`

Each `step…` function below transcribes one `re.sub` call applied to a
narration part, in the order the source applies them.  The regex engine's
left-to-right non-overlapping scan is realized as a recursive walk; where
a pattern could in principle backtrack, the doc comment argues why the
deterministic walk implemented here agrees with `re`'s behaviour. -/

/-- Step (a), `re.sub(r'---\n.*', '', part, flags=re.DOTALL)`: because `.*`
with DOTALL is greedy, the substitution deletes everything from the first
occurrence of `---\n` to the end of the string. -/
def dropFooter : List Char → List Char
  | [] => []
  | c :: rest =>
    if c = '-' ∧ rest.take 3 = ['-', '-', '\n'] then []
    else c :: dropFooter rest

/-- Phase 1 of the per-part cleanup: footer removal plus `.strip()`, then
`"\n".join(line for line in text.splitlines() if line.strip())`. -/
def phase1 (l : List Char) : List Char :=
  joinWithNewline ((pySplitlines (pyStrip (dropFooter l))).filter
    (fun ln => !(pyStrip ln).isEmpty))

/-- Greedy `(\*\*)*`: consume as many `**` pairs as possible.  No
backtracking is needed in the speaker-label pattern, because what must
follow the pairs (`LOCUTOR:`/`HOST:` or whitespace) can never begin
with `*`. -/
def dropStarPairs : List Char → List Char
  | [] => []
  | [c] => [c]
  | c1 :: c2 :: rest =>
    if c1 = '*' ∧ c2 = '*' then dropStarPairs rest else c1 :: c2 :: rest

/-- Case-insensitive literal keyword match (IGNORECASE on the ASCII
keywords); the pattern is supplied lowercased. -/
def matchKeyword : List Char → List Char → Option (List Char)
  | [], l => some l
  | _ :: _, [] => none
  | p :: ps, c :: cs => if c.toLower = p then matchKeyword ps cs else none

/-- The alternation `(LOCUTOR:|HOST:)`, tried left to right. -/
def matchSpeakerTag (l : List Char) : Option (List Char) :=
  match matchKeyword ['l', 'o', 'c', 'u', 't', 'o', 'r', ':'] l with
  | some r => some r
  | none => matchKeyword ['h', 'o', 's', 't', ':'] l

theorem matchKeyword_length {p l r : List Char} (h : matchKeyword p l = some r) :
    r.length + p.length = l.length := by
  induction p generalizing l with
  | nil =>
    simp only [matchKeyword, Option.some.injEq] at h
    simp [← h]
  | cons c ps ih =>
    match l with
    | [] => simp [matchKeyword] at h
    | a :: as =>
      simp only [matchKeyword] at h
      split at h
      · have := ih h
        simp only [List.length_cons]
        omega
      · exact absurd h (by simp)

theorem matchSpeakerTag_lt {l r : List Char} (h : matchSpeakerTag l = some r) :
    r.length < l.length := by
  unfold matchSpeakerTag at h
  split at h
  · next heq =>
    rw [Option.some.injEq] at h
    subst h
    have := matchKeyword_length heq
    simp at this
    omega
  · have := matchKeyword_length h
    simp at this
    omega

theorem dropStarPairs_length_le : ∀ l : List Char, (dropStarPairs l).length ≤ l.length
  | [] => by simp [dropStarPairs]
  | [c] => by simp [dropStarPairs]
  | c1 :: c2 :: rest => by
    rw [dropStarPairs]
    split
    · have := dropStarPairs_length_le rest
      simp only [List.length_cons]
      omega
    · exact le_refl _

theorem dropWhile_length_le (p : Char → Bool) (l : List Char) :
    (l.dropWhile p).length ≤ l.length := by
  induction l with
  | nil => simp
  | cons c rest ih =>
    rw [List.dropWhile_cons]
    split
    · simp only [List.length_cons]
      omega
    · exact le_refl _

/-- The whole speaker-label pattern
`^\s*(\*\*)*(LOCUTOR:|HOST:)(\*\*)*\s*` (IGNORECASE, MULTILINE), tried at
one line-start position.  All sub-pieces are taken greedily; backtracking
can never rescue a failed attempt because the mandatory keyword starts
with a letter, which neither `\s` nor `\*\*` can consume.  Returns the
rest of the string after the match together with whether the match ended
immediately after a `'\n'` (so that the next scan position is again a
line start for MULTILINE `^`). -/
def matchLabel (cs : List Char) : Option (Bool × List Char) :=
  let r1 := cs.dropWhile isPyWs
  let r2 := dropStarPairs r1
  match matchSpeakerTag r2 with
  | none => none
  | some r3 =>
    let r4 := dropStarPairs r3
    let w2 := r4.takeWhile isPyWs
    let r5 := r4.dropWhile isPyWs
    some (w2.getLast? == some '\n', r5)

theorem matchLabel_lt {cs : List Char} {b : Bool} {r : List Char}
    (h : matchLabel cs = some (b, r)) : r.length < cs.length := by
  simp only [matchLabel] at h
  split at h
  · exact absurd h (by simp)
  · next r3 heq =>
    rw [Option.some.injEq, Prod.mk.injEq] at h
    have h5 : r = (dropStarPairs r3).dropWhile isPyWs := h.2.symm
    have l1 : ((dropStarPairs r3).dropWhile isPyWs).length ≤ r3.length :=
      le_trans (dropWhile_length_le _ _) (dropStarPairs_length_le _)
    have l2 : r3.length < (dropStarPairs (cs.dropWhile isPyWs)).length :=
      matchSpeakerTag_lt heq
    have l3 : (dropStarPairs (cs.dropWhile isPyWs)).length ≤ cs.length :=
      le_trans (dropStarPairs_length_le _) (dropWhile_length_le _ _)
    rw [h5]
    omega

/-- Step (c): the MULTILINE scan of the speaker-label substitution.  `re`
attempts a match at every position but the `^` anchor restricts hits to
position 0 and positions immediately after `'\n'`; the flag tracks that.
The fuel argument (instantiated with the string length, sufficient since
every iteration consumes at least one character — `matchLabel_lt`) makes
the jump-ahead recursion structurally decreasing. -/
def stepCGo : ℕ → Bool → List Char → List Char
  | 0, _, _ => []
  | _, _, [] => []
  | fuel + 1, atStart, c :: rest =>
    if atStart then
      match matchLabel (c :: rest) with
      | some (b, r) => stepCGo fuel b r
      | none => c :: stepCGo fuel (c == '\n') rest
    else
      c :: stepCGo fuel (c == '\n') rest

/-- Step (c) entry point:
`re.sub(r'^\s*(\*\*)*(LOCUTOR:|HOST:)(\*\*)*\s*', '', text, flags=re.IGNORECASE | re.MULTILINE)`. -/
def stepC (l : List Char) : List Char := stepCGo l.length true l

/-- Lazy scan for a closing delimiter: consume characters (all matched by
`.`, hence never `'\n'`) until the literal delimiter `d` first occurs.
Returns the consumed middle and the rest after the delimiter. -/
def findDelim (d : List Char) : List Char → Option (List Char × List Char)
  | [] => none
  | c :: rest =>
    if d.isPrefixOf (c :: rest) then some ([], (c :: rest).drop d.length)
    else if c = '\n' then none
    else
      match findDelim d rest with
      | some (m, r) => some (c :: m, r)
      | none => none

theorem findDelim_length {d l m r : List Char} (hd : d ≠ [])
    (h : findDelim d l = some (m, r)) : m.length + r.length < l.length := by
  induction l generalizing m with
  | nil => simp [findDelim] at h
  | cons c rest ih =>
    rw [findDelim] at h
    split at h
    · next hpre =>
      rw [Option.some.injEq, Prod.mk.injEq] at h
      obtain ⟨hm, hr⟩ := h
      subst hm
      subst hr
      have hdl : d.length ≤ (c :: rest).length := by
        have := List.IsPrefix.length_le ((List.isPrefixOf_iff_prefix).mp hpre)
        exact this
      have : ((c :: rest).drop d.length).length = (c :: rest).length - d.length := by
        simp
      have hdpos : 0 < d.length := List.length_pos.mpr hd
      simp only [List.length_nil, Nat.zero_add, this]
      omega
    · split at h
      · exact absurd h (by simp)
      · split at h
        · next m' r' heq =>
          rw [Option.some.injEq, Prod.mk.injEq] at h
          obtain ⟨hm, hr⟩ := h
          subst hm
          subst hr
          have := ih heq
          simp only [List.length_cons]
          omega
        · exact absurd h (by simp)

theorem findDelim_mem {d l m r : List Char} (h : findDelim d l = some (m, r)) :
    (∀ c ∈ m, c ∈ l) ∧ (∀ c ∈ r, c ∈ l) := by
  induction l generalizing m with
  | nil => simp [findDelim] at h
  | cons c rest ih =>
    rw [findDelim] at h
    split at h
    · rw [Option.some.injEq, Prod.mk.injEq] at h
      obtain ⟨hm, hr⟩ := h
      subst hm
      subst hr
      refine ⟨by simp, ?_⟩
      intro x hx
      exact List.mem_of_mem_drop hx
    · split at h
      · exact absurd h (by simp)
      · split at h
        · next m' r' heq =>
          rw [Option.some.injEq, Prod.mk.injEq] at h
          obtain ⟨hm, hr⟩ := h
          subst hm
          subst hr
          obtain ⟨ihm, ihr⟩ := ih heq
          constructor
          · intro x hx
            rcases List.mem_cons.mp hx with hx | hx
            · simp [hx]
            · exact List.mem_cons_of_mem _ (ihm x hx)
          · intro x hx
            exact List.mem_cons_of_mem _ (ihr x hx)
        · exact absurd h (by simp)

/-- Step (d), `re.sub(r'\*(\*?)(.*?)\1\*', r'\2', text)`: scan for a `*`;
if a second `*` follows, the greedy `(\*?)` first tries the two-star form,
whose closer is the literal `**` found by the lazy middle scan; if no `**`
closer exists before a newline/end, the engine retries with `\1` empty,
which then immediately closes on the second `*` (empty middle).  With a
single `*` the closer is the next `*` on the same line.  On failure the
engine moves one position right.  Fueled like `stepCGo`. -/
def stepDGo : ℕ → List Char → List Char
  | 0, _ => []
  | _, [] => []
  | fuel + 1, '*' :: '*' :: rest =>
    match findDelim ['*', '*'] rest with
    | some (mid, r) => mid ++ stepDGo fuel r
    | none => stepDGo fuel rest
  | fuel + 1, '*' :: c :: rest =>
    match findDelim ['*'] (c :: rest) with
    | some (mid, r) => mid ++ stepDGo fuel r
    | none => '*' :: stepDGo fuel (c :: rest)
  | fuel + 1, c :: rest => c :: stepDGo fuel rest

def stepDScan (l : List Char) : List Char := stepDGo l.length l

/-- Step (e), `re.sub(r'\x60', '', text)`: remove every backtick. -/
def stepE (l : List Char) : List Char := l.filter (fun c => c ≠ '\x60')

/-- One attempt of the heading pattern `^\s*#+\s+` at a line start:
whitespace (greedily, across newlines — `\s` matches `\n` under
MULTILINE too), at least one `#`, then at least one whitespace char.
Backtracking cannot help: giving back `\s*`/`#+` characters only puts a
mandatory `#`/whitespace test on a character known not to match it. -/
def matchHeading (cs : List Char) : Option (Bool × List Char) :=
  let r1 := cs.dropWhile isPyWs
  match r1 with
  | '#' :: _ =>
    let r2 := r1.dropWhile (fun c => c = '#')
    let w2 := r2.takeWhile isPyWs
    if w2.isEmpty then none
    else some (w2.getLast? == some '\n', r2.dropWhile isPyWs)
  | _ => none

theorem matchHeading_lt {cs : List Char} {b : Bool} {r : List Char}
    (h : matchHeading cs = some (b, r)) : r.length < cs.length := by
  simp only [matchHeading] at h
  split at h
  · next tail heq =>
    split at h
    · exact absurd h (by simp)
    · rw [Option.some.injEq, Prod.mk.injEq] at h
      obtain ⟨hb, hr⟩ := h
      subst hr
      have l2 : (List.dropWhile isPyWs cs).length ≤ cs.length :=
        dropWhile_length_le _ _
      have l0 : (List.dropWhile (fun c => decide (c = '#'))
          (List.dropWhile isPyWs cs)).length < (List.dropWhile isPyWs cs).length := by
        rw [heq]
        have hstep : List.dropWhile (fun c => decide (c = '#')) ('#' :: tail) =
            List.dropWhile (fun c => decide (c = '#')) tail := by
          simp [List.dropWhile_cons]
        rw [hstep]
        have ht := dropWhile_length_le (fun c => decide (c = '#')) tail
        simp only [List.length_cons]
        omega
      have l1 : (List.dropWhile isPyWs (List.dropWhile (fun c => decide (c = '#'))
          (List.dropWhile isPyWs cs))).length ≤
          (List.dropWhile (fun c => decide (c = '#'))
          (List.dropWhile isPyWs cs)).length :=
        dropWhile_length_le _ _
      omega
  · exact absurd h (by simp)

/-- Step (f): MULTILINE scan for `re.sub(r'^\s*#+\s+', '', text, flags=re.MULTILINE)`,
fueled like `stepCGo` (`matchHeading_lt` makes the length sufficient). -/
def stepFGo : ℕ → Bool → List Char → List Char
  | 0, _, _ => []
  | _, _, [] => []
  | fuel + 1, atStart, c :: rest =>
    if atStart then
      match matchHeading (c :: rest) with
      | some (b, r) => stepFGo fuel b r
      | none => c :: stepFGo fuel (c == '\n') rest
    else
      c :: stepFGo fuel (c == '\n') rest

def stepF (l : List Char) : List Char := stepFGo l.length true l

/-- One attempt of the bullet pattern `^\s*[-*+]\s+` at a line start. -/
def matchBullet (cs : List Char) : Option (Bool × List Char) :=
  let r1 := cs.dropWhile isPyWs
  match r1 with
  | c :: rest =>
    if c = '-' || c = '*' || c = '+' then
      let w2 := rest.takeWhile isPyWs
      if w2.isEmpty then none
      else some (w2.getLast? == some '\n', rest.dropWhile isPyWs)
    else none
  | [] => none

theorem matchBullet_lt {cs : List Char} {b : Bool} {r : List Char}
    (h : matchBullet cs = some (b, r)) : r.length < cs.length := by
  simp only [matchBullet] at h
  split at h
  · next c rest heq =>
    split at h
    · split at h
      · exact absurd h (by simp)
      · rw [Option.some.injEq, Prod.mk.injEq] at h
        have hr : r = rest.dropWhile isPyWs := by rw [← h.2]
        have l1 : (List.dropWhile isPyWs rest).length ≤ rest.length :=
          dropWhile_length_le _ _
        have l2 : (List.dropWhile isPyWs cs).length ≤ cs.length :=
          dropWhile_length_le _ _
        have l3 : rest.length + 1 = (List.dropWhile isPyWs cs).length := by
          rw [heq]
          simp
        rw [hr]
        omega
    · exact absurd h (by simp)
  · exact absurd h (by simp)

/-- Step (g): MULTILINE scan for `re.sub(r'^\s*[-*+]\s+', '', text, flags=re.MULTILINE)`,
fueled like `stepCGo`. -/
def stepGGo : ℕ → Bool → List Char → List Char
  | 0, _, _ => []
  | _, _, [] => []
  | fuel + 1, atStart, c :: rest =>
    if atStart then
      match matchBullet (c :: rest) with
      | some (b, r) => stepGGo fuel b r
      | none => c :: stepGGo fuel (c == '\n') rest
    else
      c :: stepGGo fuel (c == '\n') rest

def stepG (l : List Char) : List Char := stepGGo l.length true l

/-- Step (h), `re.sub(r'\[(.*?)\]\(.*?\)', r'\1', text)`: at a `[`, the
lazy label scan stops at the first `](` on the same line, then the lazy
url scan stops at the first `)` on the same line.  (Growing the label past
the first `](` could only succeed if a `)` existed later on the same line,
in which case the url scan from the first `](` would already have found
it, so the deterministic walk agrees with the backtracking engine.)
Fueled like `stepCGo`. -/
def stepHGo : ℕ → List Char → List Char
  | 0, _ => []
  | _, [] => []
  | fuel + 1, c :: rest =>
    if c = '[' then
      match findDelim [']', '('] rest with
      | some (label, r1) =>
        match findDelim [')'] r1 with
        | some (_, r2) => label ++ stepHGo fuel r2
        | none => c :: stepHGo fuel rest
      | none => c :: stepHGo fuel rest
    else c :: stepHGo fuel rest

def stepHScan (l : List Char) : List Char := stepHGo l.length l

/-- Step (i) part 1, `re.sub(r'\s+', ' ', text)`: every maximal whitespace
run becomes a single space. -/
def collapseWs : List Char → List Char
  | [] => []
  | [c] => if isPyWs c then [' '] else [c]
  | c1 :: c2 :: rest =>
    if isPyWs c1 && isPyWs c2 then collapseWs (c2 :: rest)
    else if isPyWs c1 then ' ' :: collapseWs (c2 :: rest)
    else c1 :: collapseWs (c2 :: rest)

/-- Sentence punctuation of step (j)'s class `[?.!,:]`. -/
def isPunctTTS (c : Char) : Bool :=
  c = '?' || c = '.' || c = '!' || c = ',' || c = ':'

/-- Step (j), `re.sub(r'\s([?.!,:])', r'\1', text)`: drop one whitespace
character immediately preceding sentence punctuation; scanning resumes
after the punctuation character just emitted. -/
def stepJScan : List Char → List Char
  | [] => []
  | [c] => [c]
  | c1 :: c2 :: rest =>
    if isPyWs c1 && isPunctTTS c2 then c2 :: stepJScan rest
    else c1 :: stepJScan (c2 :: rest)

/-- Phase 2 of the per-part cleanup: steps (c) through (j) in source order. -/
def phase2 (l : List Char) : List Char :=
  stepJScan (pyStrip (collapseWs (stepHScan (stepG (stepF (stepE (stepDScan (stepC l))))))))

/-- Full sanitization of one narration part (phase 1 then phase 2). -/
def sanitizeChars (l : List Char) : List Char := phase2 (phase1 l)

/-- String-level sanitization. -/
def sanitizeText (s : String) : String := String.mk (sanitizeChars s.data)

/-! ## Segmentation: `re.split(r'(\[.*?\])', script_text)` and part filtering -/

/-- Find the first marker match of `\[.*?\]`: a `[`, then lazily any
non-newline characters, then the first `]`.  If no `]` occurs before a
newline or the end, that `[` is plain text and scanning proceeds to the
next character.  Returns (text before the marker, the marker itself
including brackets, rest after it). -/
def findMarker : List Char → Option (List Char × List Char × List Char)
  | [] => none
  | c :: rest =>
    if c = '[' then
      match findDelim [']'] rest with
      | some (mid, r) => some ([], '[' :: (mid ++ [']']), r)
      | none =>
        match findMarker rest with
        | some (pre, mk, r) => some (c :: pre, mk, r)
        | none => none
    else
      match findMarker rest with
      | some (pre, mk, r) => some (c :: pre, mk, r)
      | none => none

theorem findMarker_lt {l pre mk r : List Char}
    (h : findMarker l = some (pre, mk, r)) : r.length < l.length := by
  induction l generalizing pre mk r with
  | nil => simp [findMarker] at h
  | cons c rest ih =>
    rw [findMarker] at h
    split at h
    · split at h
      · next mid r1 heq =>
        rw [Option.some.injEq, Prod.mk.injEq, Prod.mk.injEq] at h
        obtain ⟨-, -, hr⟩ := h
        subst hr
        have := findDelim_length (by simp) heq
        simp only [List.length_cons]
        omega
      · split at h
        · next heq2 =>
          rw [Option.some.injEq, Prod.mk.injEq, Prod.mk.injEq] at h
          obtain ⟨-, -, hr⟩ := h
          subst hr
          have := ih heq2
          simp only [List.length_cons]
          omega
        · exact absurd h (by simp)
    · split at h
      · next heq2 =>
        rw [Option.some.injEq, Prod.mk.injEq, Prod.mk.injEq] at h
        obtain ⟨-, -, hr⟩ := h
        subst hr
        have := ih heq2
        simp only [List.length_cons]
        omega
      · exact absurd h (by simp)

/-- The full `re.split` with a capture group: the list of the text pieces
and the captured markers, in original order (text, marker, text, marker,
..., text).  Fueled (`findMarker_lt` makes the length sufficient). -/
def splitMarkersGo : ℕ → List Char → List (List Char)
  | 0, cs => [cs]
  | fuel + 1, cs =>
    match findMarker cs with
    | none => [cs]
    | some (pre, mk, r) => pre :: mk :: splitMarkersGo fuel r

def splitMarkers (cs : List Char) : List (List Char) := splitMarkersGo cs.length cs

/-- The source's part list:
`[p.strip() for p in re.split(marker_pattern, script_text) if p and p.strip()]`. -/
def splitParts (s : String) : List String :=
  (splitMarkers s.data).filterMap (fun p =>
    if p.isEmpty then none
    else if (pyStrip p).isEmpty then none
    else some (String.mk (pyStrip p)))

/-- The three cue markers that insert the vignette clip. -/
def vignetteMarkers : List String :=
  ["[VINHETA DE ABERTURA]", "[VINHETA DE TRANSIÇÃO]", "[VINHETA DE ENCERRAMENTO]"]

/-- All markers silently removed from the spoken text (the cue markers
plus `[MÚSICA SUAVE DE FUNDO]` and `[SECTION BREAK]`). -/
def markersToRemove : List String :=
  vignetteMarkers ++ ["[MÚSICA SUAVE DE FUNDO]", "[SECTION BREAK]"]

/-- Python `s.startswith(pre)` / `s.endswith(suf)` on the character lists
(the built-in `String.startsWith` is bytewise and opaque to the kernel). -/
def strStartsWith (s pre : String) : Bool := pre.data.isPrefixOf s.data

/-- Python `s.endswith(suf)`. -/
def strEndsWith (s suf : String) : Bool := suf.data.isSuffixOf s.data

/-- The spec's `ScriptSegment`: a cue (vignette) or sanitized narration. -/
inductive ScriptSegment where
  | cue
  | narration (text : String)
deriving DecidableEq

/-- Segment classification performed by the loop of
`generate_podcast_audio` when the vignette clip is loaded: recognized cue
markers become `Cue` segments, all other bracketed tokens are dropped, and
text parts become `Narration` segments carrying their sanitized text
(dropped when sanitization leaves nothing, with the same two emptiness
checks the source makes). -/
def segmentScript (script : String) : List ScriptSegment :=
  (splitParts script).filterMap (fun p =>
    if vignetteMarkers.contains p then some .cue
    else if markersToRemove.contains p then none
    else if strStartsWith p "[" && strEndsWith p "]" then none
    else
      let t1 := phase1 p.data
      if t1.isEmpty then none
      else
        let t2 := phase2 t1
        if t2.isEmpty then none
        else some (.narration (String.mk t2)))

/-! ## Audio model

An `AudioSegment` is idealized as one integer sample amplitude per
millisecond.  Only concatenation, slicing, the silence analysis of
`strip_silence` and durations are observed by the claims; the crossfade
and fade gain ramps transcribe pydub's linear-amplitude interpolation
between `db_to_float(0) = 1` and `db_to_float(-120) = 10⁻⁶` with the
C-style truncation of `audioop.mul`. -/

/-- A clip: per-millisecond sample amplitudes. -/
abbrev Clip := List ℤ

/-- Sum of squared samples (the numerator of pydub's `rms²`). -/
def sumSq (l : Clip) : ℤ := l.foldl (fun a x => a + x * x) 0

/-- The per-window silence test of `pydub.silence.detect_silence` for the
call `strip_silence(silence_len=100, silence_thresh=self.dBFS - 16)`:
window `[i, i+100)` is silent iff `rms(slice) ≤ db_to_float(dBFS-16)·max`,
i.e. `rms(slice) ≤ rms(track)·10^(-4/5)`.  Raising both (nonnegative)
sides to the 5th power and clearing denominators turns this float
comparison into the exact integer inequality
`ssl⁵·n⁵·10⁸ ≤ sst⁵·100⁵` where `ssl`/`sst` are the summed squares of the
slice/track and `n` the track length. -/
def sliceSilent (seg : Clip) (sst : ℤ) (n : ℕ) (i : ℕ) : Bool :=
  let ssl := sumSq ((seg.drop i).take 100)
  decide (ssl ^ 5 * (n : ℤ) ^ 5 * 10 ^ 8 ≤ sst ^ 5 * 100 ^ 5)

/-- All window start positions `range(0, seg_len - min_silence_len + 1)`
whose window is silent (`seek_step = 1`). -/
def detectSilenceStarts (seg : Clip) : List ℕ :=
  (List.range (seg.length - 100 + 1)).filter (sliceSilent seg (sumSq seg) seg.length)

/-- The range-combining loop of `detect_silence`: a new range is opened
when the next silent start is neither continuous (`prev + 1`) nor within
`min_silence_len` of the previous one; each range ends at
`prev + min_silence_len`. -/
def mergeStartsGo (currentStart prev : ℕ) : List ℕ → List (ℕ × ℕ)
  | [] => [(currentStart, prev + 100)]
  | i :: rest =>
    if i ≠ prev + 1 ∧ prev + 100 < i then
      (currentStart, prev + 100) :: mergeStartsGo i i rest
    else mergeStartsGo currentStart i rest

/-- `pydub.silence.detect_silence` (with the source call's parameters):
empty when the segment is shorter than the window. -/
def detectSilenceRanges (seg : Clip) : List (ℕ × ℕ) :=
  if seg.length < 100 then []
  else
    match detectSilenceStarts seg with
    | [] => []
    | s0 :: rest => mergeStartsGo s0 s0 rest

/-- Interior loop of `detect_nonsilent`: complement the silent ranges. -/
def buildNonsilent (prevEnd : ℕ) (n : ℕ) : List (ℕ × ℕ) → List (ℕ × ℕ)
  | [] => []
  | [(s, e)] => (prevEnd, s) :: (if e ≠ n then [(e, n)] else [])
  | (s, e) :: rest => (prevEnd, s) :: buildNonsilent e n rest

/-- `pydub.silence.detect_nonsilent`. -/
def detectNonsilent (seg : Clip) : List (ℕ × ℕ) :=
  let n := seg.length
  match detectSilenceRanges seg with
  | [] => [(0, n)]
  | (s0, e0) :: rest =>
    if s0 = 0 ∧ e0 = n then []
    else
      match buildNonsilent 0 n ((s0, e0) :: rest) with
      | (0, 0) :: t => t
      | l => l

/-- Python slicing `seg[max(start,0) : min(end,len(seg))]`. -/
def pySliceClip (seg : Clip) (s e : ℤ) : Clip :=
  let a := (max s 0).toNat
  let b := (min e (seg.length : ℤ)).toNat
  (seg.drop a).take (b - a)

/-- The pairwise overlap adjustment of `split_on_silence`: when padded
ranges overlap, both boundaries are moved to the floor midpoint
(the sequential in-place mutation is reproduced by carrying the mutated
current range through the walk). -/
def adjustGo (cur : ℤ × ℤ) : List (ℤ × ℤ) → List (ℤ × ℤ)
  | [] => [cur]
  | (s2, e2) :: rest =>
    if s2 < cur.2 then
      let m := Int.fdiv (cur.2 + s2) 2
      (cur.1, m) :: adjustGo (m, e2) rest
    else cur :: adjustGo (s2, e2) rest

/-- Overlap adjustment over the whole padded range list. -/
def adjustOverlaps : List (ℤ × ℤ) → List (ℤ × ℤ)
  | [] => []
  | r :: rest => adjustGo r rest

/-- `pydub.silence.split_on_silence` with `keep_silence = padding = 100`:
pad every nonsilent range by 100 ms on each side, resolve overlaps, then
slice the segment. -/
def splitOnSilence (seg : Clip) : List Clip :=
  let ranges := (detectNonsilent seg).map (fun pr => ((pr.1 : ℤ) - 100, (pr.2 : ℤ) + 100))
  (adjustOverlaps ranges).map (fun pr => pySliceClip seg pr.1 pr.2)

/-- Truncating multiplication by the fade-out gain
`1 + (10⁻⁶ - 1)·k/cf` at ramp position `k` of `cf`. -/
def fadeOutMul (x : ℤ) (k cf : ℕ) : ℤ :=
  Int.tdiv (x * (1000000 * ((cf : ℤ) - (k : ℤ)) + (k : ℤ))) (1000000 * (cf : ℤ))

/-- Truncating multiplication by the fade-in gain
`10⁻⁶ + (1 - 10⁻⁶)·k/cf` at ramp position `k` of `cf`. -/
def fadeInMul (x : ℤ) (k cf : ℕ) : ℤ :=
  Int.tdiv (x * (((cf : ℤ) - (k : ℤ)) + 1000000 * (k : ℤ))) (1000000 * (cf : ℤ))

/-- The crossfaded overlap of `AudioSegment.append`: the tail of `a`
faded out overlaid onto (added to) the head of `b` faded in. -/
def crossMix (a b : Clip) (cf : ℕ) : Clip :=
  (List.range cf).map (fun k => fadeOutMul (a.getD k 0) k cf + fadeInMul (b.getD k 0) k cf)

/-- `seg1.append(seg2, crossfade=cf)`:
`seg1[:-cf] + crossfade(seg1[-cf:], seg2[:cf]) + seg2[cf:]`. -/
def appendCross (a b : Clip) (cf : ℕ) : Clip :=
  a.take (a.length - cf) ++ crossMix (a.drop (a.length - cf)) (b.take cf) cf ++ b.drop cf

/-- `AudioSegment.strip_silence(silence_len=100, silence_thresh=dBFS-16)`
(default `padding=100`): split on silence, then re-append the chunks with
a `padding/2 = 50` ms crossfade; no chunks at all yield the empty clip
`self[0:0]`. -/
def stripSilence (seg : Clip) : Clip :=
  match splitOnSilence seg with
  | [] => []
  | c :: cs => cs.foldl (fun acc chunk => appendCross acc chunk 50) c

/-! ## The assembly loop of `generate_podcast_audio` -/

/-- The 300 ms of digital silence appended after each speech segment. -/
def silenceGap : Clip := List.replicate 300 0

/-- Python truthiness of the `vignette` variable: `None` and an empty
`AudioSegment` (whose `__len__` is 0) are falsy. -/
def vigTruthy : Option Clip → Bool
  | some v => !v.isEmpty
  | none => false

/-- The per-part loop of `generate_podcast_audio`.  `synth` is the
combined gTTS + pydub-decode oracle for one sanitized text: `none` covers
both the synthesis failure and the decode failure, which the source
handles identically (log and `continue`).  Branch order follows the
source: vignette markers (only when the vignette is truthy), then markers
to remove, then unknown bracketed markers, then text parts which are
cleaned in two phases with an emptiness check after each. -/
def processParts (synth : String → Option Clip) (vig : Option Clip) :
    List String → List Clip
  | [] => []
  | p :: rest =>
    if vignetteMarkers.contains p && vigTruthy vig then
      vig.getD [] :: processParts synth vig rest
    else if markersToRemove.contains p then
      processParts synth vig rest
    else if strStartsWith p "[" && strEndsWith p "]" then
      processParts synth vig rest
    else
      let t1 := phase1 p.data
      if t1.isEmpty then processParts synth vig rest
      else
        let t2 := phase2 t1
        if t2.isEmpty then processParts synth vig rest
        else
          match synth (String.mk t2) with
          | some clip => clip :: silenceGap :: processParts synth vig rest
          | none => processParts synth vig rest

/-- `combined_audio = AudioSegment.empty(); for segment: combined += segment`. -/
def combineClips (clips : List Clip) : Clip := clips.foldl (fun a c => a ++ c) []

/-- Concatenation followed by the guarded `strip_silence` call
(`if len(combined_audio) > 0`). -/
def strippedCombined (clips : List Clip) : Clip :=
  let combined := combineClips clips
  if 0 < combined.length then stripSilence combined else combined

/-- `generate_podcast_audio` as a total function: `exportMp3` is the mp3
encoding oracle (its `none` models an export exception, caught by the
surrounding `try/except` and converted to `return None`); the two early
`return None` paths are the empty part list and the empty clip list. -/
def generatePodcastAudio {σ : Type} (synth : String → Option Clip)
    (vig : Option Clip) (exportMp3 : Clip → Option σ) (script : String) : Option σ :=
  let parts := splitParts script
  if parts.isEmpty then none
  else
    let clips := processParts synth vig parts
    if clips.isEmpty then none
    else exportMp3 (strippedCombined clips)

/-- Startup outcomes for the pre-packaged vignette resource. -/
inductive VignetteSource where
  | missing
  | decodeFailure
  | ok (full : Clip)

/-- Vignette preparation: `vignette_full[:5000]` then
`fade_out(min(1000, 5000 // 4))`. -/
def prepareVignette (full : Clip) : Clip :=
  let trimmed := full.take 5000
  let d := min 1000 (5000 / 4)
  let n := trimmed.length
  trimmed.mapIdx (fun i x => if n - d ≤ i then fadeOutMul x (i - (n - d)) (min d n) else x)

/-- Vignette loading in `generate_podcast_audio`: a missing file or a
load/decode error is caught, logged and leaves `vignette = None`. -/
def loadVignette : VignetteSource → Option Clip
  | .missing => none
  | .decodeFailure => none
  | .ok full => some (prepareVignette full)

/-! ## Script generation (`generate_podcast_script`) and the stub fallback -/

/-- Repository identity fields used by the stub script.  `repoTitle`,
`ownerName`, `mainLanguage` and `repoDesc` stand for the source's
`repo_summary.get("title", ...)`, `self.repo_owner or "N/A"`,
`next(iter(languages))` and `repo_summary.get('description', ...)`
fallback chains, whose defaulting happens before the f-string is built. -/
structure ScriptContext where
  repoTitle : String
  ownerName : String
  mainLanguage : String
  repoDesc : String
  repoLink : String
  geminiModelName : String

/-- `model_name_mention`: present whenever a model name is configured. -/
def modelNameMention (ctx : ScriptContext) : String :=
  if ctx.geminiModelName = "" then ""
  else " (tentativa com " ++ ctx.geminiModelName ++ ")"

/-- The stub script of `_generate_stub_podcast_script`, the f-string
transcribed verbatim (apostrophes written `\x27`), split at the three cue
markers into named segments so containment is provable for every context. -/
def stubSeg1 : String := "\n        "

/-- Stub text between the opening and the transition cue. -/
def stubSeg2 (ctx : ScriptContext) (errorMessage : String) : String :=
  "\n\n        LOCUTOR: Olá! Bem-vindos ao Explica Código! Infelizmente, hoje encontramos um problema técnico ao tentar gerar a análise detalhada do repositório" ++ modelNameMention ctx ++ ". A mensagem de erro foi: \"" ++ errorMessage ++ "\".\n\n        LOCUTOR: Mesmo sem a análise da IA, vamos dar uma olhada nas informações básicas que conseguimos coletar.\n\n        "

/-- Stub text between the transition and the closing cue. -/
def stubSeg3 (ctx : ScriptContext) : String :=
  "\n\n        LOCUTOR: O repositório que íamos explorar é o \x27" ++ ctx.repoTitle ++ "\x27, mantido por \x27" ++ ctx.ownerName ++ "\x27. Pelo que vimos, ele parece ser escrito principalmente em \x27" ++ ctx.mainLanguage ++ "\x27.\n\n        LOCUTOR: A descrição que encontramos sugere que o objetivo do projeto é: " ++ ctx.repoDesc ++ "\n\n        LOCUTOR: Como não conseguimos gerar o roteiro completo, a dica de hoje é mais genérica: ao explorar um novo repositório, sempre comece pelo README.md! Ele geralmente contém a visão geral, instruções de instalação e uso.\n\n        LOCUTOR: Depois do README, procure por arquivos de configuração (como \x27package.json\x27, \x27requirements.txt\x27, \x27pom.xml\x27), arquivos de ponto de entrada (como \x27main.py\x27, \x27index.js\x27, \x27Program.cs\x27) e a estrutura geral de pastas (como \x27src\x27, \x27app\x27, \x27lib\x27, \x27tests\x27, \x27docs\x27).\n\n        LOCUTOR: Pedimos desculpas por não termos o episódio completo hoje. Recomendamos que você mesmo navegue pelo repositório no link que deixaremos na descrição, caso ele esteja disponível: " ++ ctx.repoLink ++ "\n\n        "

/-- Stub text after the closing cue (the trailing footer block). -/
def stubSeg4 (ctx : ScriptContext) (errorMessage : String) : String :=
  "\n        ---\n        Roteiro de exemplo gerado devido a erro.\n        Repositório: " ++ ctx.repoLink ++ "\n        Erro: " ++ errorMessage ++ "\n        "

/-- The whole stub script. -/
def stubScript (ctx : ScriptContext) (errorMessage : String) : String :=
  stubSeg1 ++ "[VINHETA DE ABERTURA]" ++ stubSeg2 ctx errorMessage ++
    "[VINHETA DE TRANSIÇÃO]" ++ stubSeg3 ctx ++
    "[VINHETA DE ENCERRAMENTO]" ++ stubSeg4 ctx errorMessage

/-- The default `error_message` of `_generate_stub_podcast_script`. -/
def stubDefaultError : String := "API indisponível ou erro na geração"

/-- Python substring test `pat in s` on character lists. -/
def listContainsSub (pat : List Char) : List Char → Bool
  | [] => pat.isEmpty
  | c :: rest => pat.isPrefixOf (c :: rest) || listContainsSub pat rest

/-- Python `pat in s` for strings. -/
def strContainsSub (s pat : String) : Bool := listContainsSub pat.data s.data

/-- Python `s.lower()` (ASCII portion, all the tested literals are ASCII). -/
def strLower (s : String) : String := String.mk (s.data.map Char.toLower)

/-- Outcomes of the Gemini call inside `generate_podcast_script`'s `try`:
a response with no candidates (safety block), the typed exceptions the
source catches, or a successful text. -/
inductive GenOutcome where
  | blockedNoCandidates (blockReason : String)
  | blockedPromptException
  | stopCandidateException
  | requestException (msg : String)
  | otherException (msg : String)
  | success (text : String)

/-- `complexity_level.upper()` as used in the success footer. -/
def levelUpper : ComplexityLevel → String
  | .simple => "SIMPLE"
  | .medium => "MEDIUM"
  | .complex => "COMPLEX"

/-- The `log_prefix` chosen with the template. -/
def logPrefixFor (level : ComplexityLevel) : String :=
  if level = .complex then "DETALHADO" else "CONCISO"

/-- The footer appended to a successful Gemini response (f-string
transcribed verbatim: `\n` escapes inside the triple-quoted literal are
real newlines alongside the literal line breaks and indentation). -/
def successFooter (ctx : ScriptContext) (level : ComplexityLevel) : String :=
  "\n            \n\n---\n\n            [VINHETA DE ENCERRAMENTO]\n\n            Roteiro " ++ logPrefixFor level ++ " gerado por Explica Código (usando " ++ ctx.geminiModelName ++ ").\n            Repositório analisado: " ++ ctx.repoLink ++ "\n            Complexidade estimada: " ++ levelUpper level ++ "\n            "

/-- The `error_detail` classification of the generic `except Exception`
branch, following the source's substring tests in order. -/
def otherErrorDetail (msg : String) : String :=
  if strContainsSub msg "429" || strContainsSub msg "ResourceExhaustedError" ||
      strContainsSub (strLower msg) "rate limit" then
    "Limite de taxa da API Gemini atingido."
  else if strContainsSub msg "API key not valid" ||
      strContainsSub (strLower msg) "permission denied" then
    "API Key inválida ou sem permissão."
  else if strContainsSub (strLower msg) "invalid json" then
    "Erro interno na formatação dos dados."
  else "Erro inesperado na IA: " ++ msg

/-- `generate_podcast_script` from the point where the prompt has been
chosen: a missing API key returns the stub with its default message;
every caught failure returns the stub with the branch's message; a
successful response gains the footer and is `.strip()`-ed. -/
def generatePodcastScript (ctx : ScriptContext) (level : ComplexityLevel)
    (apiKeyPresent : Bool) (outcome : GenOutcome) : String :=
  if !apiKeyPresent then stubScript ctx stubDefaultError
  else
    match outcome with
    | .success t =>
      String.mk (pyStrip (t ++ successFooter ctx level).data)
    | .blockedNoCandidates reason =>
      stubScript ctx ("Erro: Conteúdo bloqueado pela política de segurança da IA (" ++
        ctx.geminiModelName ++ "). Razão: " ++ reason)
    | .blockedPromptException =>
      stubScript ctx ("Erro: Conteúdo bloqueado pela política de segurança da IA (" ++
        ctx.geminiModelName ++ ").")
    | .stopCandidateException =>
      stubScript ctx ("Erro: Geração interrompida pela IA (" ++ ctx.geminiModelName ++
        "), possivelmente por segurança no conteúdo gerado.")
    | .requestException msg =>
      stubScript ctx ("Erro de comunicação com a API: " ++ msg)
    | .otherException msg =>
      stubScript ctx ("Erro na comunicação com o modelo " ++ ctx.geminiModelName ++
        ": " ++ otherErrorDetail msg)

/-- A generation attempt counts as failed when the API key is absent or
the call did not return a successful text. -/
def isGenFailure (apiKeyPresent : Bool) (outcome : GenOutcome) : Bool :=
  !apiKeyPresent ||
    match outcome with
    | .success _ => false
    | _ => true

/-! ## Claim theorems: segmentation and audio assembly -/

/-- C5: segmenting the literal three-line input yields exactly a cue, the
narration `"Olá mundo!"` (speaker label stripped, emphasis unwrapped), and
a closing cue, in that order. -/
theorem segmentScript_literal_roundtrip :
    segmentScript "[VINHETA DE ABERTURA]\nLOCUTOR: Olá **mundo**!\n[VINHETA DE ENCERRAMENTO]" =
      [.cue, .narration "Olá mundo!", .cue] := by
  decide

/-- Synthesis oracle for the C2 scenario: both narration texts synthesize
to a 1 ms clip of amplitude 1. -/
def c2Synth : String → Option Clip := fun s =>
  if s = "A" then some [1] else if s = "B" then some [1] else none

/-- Prepared cue clip for the C2 scenario: 1 ms of amplitude 1. -/
def c2Vignette : Clip := [1]

/-- The clips collected by the loop for the script
`"A [VINHETA DE TRANSIÇÃO] B"`: narration (1 ms), 300 ms gap, cue (1 ms),
narration (1 ms), 300 ms gap — 603 ms in total, ending in a 300 ms gap. -/
def c2Clips : List Clip :=
  processParts c2Synth (some c2Vignette) (splitParts "A [VINHETA DE TRANSIÇÃO] B")

set_option maxRecDepth 100000 in
set_option maxHeartbeats 4000000 in
/-- C2: the final `strip_silence` call does NOT trim only trailing
silence.  For the 2-narration + 1-cue assembly above, the concatenation is
603 ms and its only trailing silence is the final 300 ms gap, so a
trailing-only trim leaves at least 603 − 300 = 303 ms; but
`strip_silence(silence_len=100, thresh=dBFS−16, padding=100)` splits on
EVERY ≥100 ms silence, keeps 100 ms around each nonsilent chunk and
rejoins with a 50 ms crossfade, and the actual result is 253 ms: the
interior 300 ms gap has been shortened mid-track, contradicting both the
claim and the source's own comment `Remove silêncio extra no final`. -/
theorem stripSilence_trims_midtrack :
    (combineClips c2Clips).length = 603 ∧
    (strippedCombined c2Clips).length = 253 ∧
    253 < 603 - 300 := by
  decide

/-- A part that the loop treats as a marker: one of the recognized cue
markers, one of the markers to remove, or any other bracketed token. -/
def isMarkerPart (p : String) : Bool :=
  vignetteMarkers.contains p || markersToRemove.contains p ||
    (strStartsWith p "[" && strEndsWith p "]")

theorem phase2_nil : phase2 [] = [] := rfl

theorem sanitize_ne_nil_phase1 {l : List Char} (h : sanitizeChars l ≠ []) :
    phase1 l ≠ [] := by
  intro hc
  apply h
  unfold sanitizeChars
  rw [hc]
  rfl

/-- C4: a per-segment synthesis (or decode) failure only skips that
segment.  For three narration parts where the middle synthesis fails, the
collected clips are exactly segment 1's clip, a gap, segment 3's clip and
a gap — non-empty, in original relative order. -/
theorem processParts_skips_failed_segment
    (t1 t2 t3 : String) (synth : String → Option Clip) (vig : Option Clip)
    (c1 c3 : Clip)
    (hm1 : isMarkerPart t1 = false) (hm2 : isMarkerPart t2 = false)
    (hm3 : isMarkerPart t3 = false)
    (hs1 : sanitizeChars t1.data ≠ []) (hs2 : sanitizeChars t2.data ≠ [])
    (hs3 : sanitizeChars t3.data ≠ [])
    (ho1 : synth (String.mk (sanitizeChars t1.data)) = some c1)
    (ho2 : synth (String.mk (sanitizeChars t2.data)) = none)
    (ho3 : synth (String.mk (sanitizeChars t3.data)) = some c3) :
    processParts synth vig [t1, t2, t3] = [c1, silenceGap, c3, silenceGap] ∧
    processParts synth vig [t1, t2, t3] ≠ [] := by
  have step : ∀ (t : String) (rest : List String),
      isMarkerPart t = false → sanitizeChars t.data ≠ [] →
      processParts synth vig (t :: rest) =
        (match synth (String.mk (sanitizeChars t.data)) with
         | some c => c :: silenceGap :: processParts synth vig rest
         | none => processParts synth vig rest) := by
    intro t rest hm hs
    simp only [isMarkerPart, Bool.or_eq_false_iff] at hm
    obtain ⟨⟨hv, hr⟩, hcd⟩ := hm
    have h1 : phase1 t.data ≠ [] := sanitize_ne_nil_phase1 hs
    simp only [processParts]
    rw [if_neg (by rw [hv]; simp), if_neg (by rw [hr]; simp), if_neg (by rw [hcd]; simp)]
    rw [if_neg (by simpa [List.isEmpty_iff] using h1)]
    rw [if_neg (by simpa [List.isEmpty_iff, sanitizeChars] using hs)]
    rfl
  rw [step t1 _ hm1 hs1, ho1, step t2 _ hm2 hs2, ho2, step t3 _ hm3 hs3, ho3]
  simp [processParts]

/-- C4 witness: a concrete three-segment script where segment 2 fails. -/
theorem processParts_skips_failed_segment_witness :
    processParts
      (fun s => if s = "Um" then some [1] else if s = "Tres" then some [3] else none)
      none ["Um", "Dois", "Tres"] = [[1], silenceGap, [3], silenceGap] :=
  (processParts_skips_failed_segment "Um" "Dois" "Tres"
    (fun s => if s = "Um" then some [1] else if s = "Tres" then some [3] else none)
    none [1] [3]
    (by decide) (by decide) (by decide)
    (by decide) (by decide) (by decide)
    (by decide) (by decide) (by decide)).1

theorem vig_contains_remove {p : String} (h : vignetteMarkers.contains p = true) :
    markersToRemove.contains p = true := by
  have hmem : p = "[VINHETA DE ABERTURA]" ∨ p = "[VINHETA DE TRANSIÇÃO]" ∨
      p = "[VINHETA DE ENCERRAMENTO]" := by
    simpa [vignetteMarkers] using h
  rcases hmem with rfl | rfl | rfl <;> decide

theorem processParts_marker_skip {p : String} (hm : isMarkerPart p = true)
    (synth : String → Option Clip) (rest : List String) :
    processParts synth none (p :: rest) = processParts synth none rest := by
  simp only [processParts]
  rw [if_neg (by simp [vigTruthy])]
  by_cases hr : markersToRemove.contains p = true
  · rw [if_pos hr]
  · have hv : vignetteMarkers.contains p = false := by
      cases hvv : vignetteMarkers.contains p
      · rfl
      · exact absurd (vig_contains_remove hvv) hr
    have hb : (strStartsWith p "[" && strEndsWith p "]") = true := by
      simp only [isMarkerPart, hv, Bool.false_or,
        Bool.eq_false_iff.mpr hr, Bool.false_or] at hm
      exact hm
    rw [if_neg hr, if_pos hb]

/-- C9: a missing or undecodable vignette resource leaves the run in
narration-only degraded mode instead of aborting: loading yields `None`,
and with `vignette = None` the loop produces exactly the clips it would
produce with every marker part removed — cue markers insert no audio and
raise no error, narration parts are still synthesized and assembled. -/
theorem vignette_failure_degrades_gracefully :
    loadVignette .missing = none ∧ loadVignette .decodeFailure = none ∧
    ∀ (synth : String → Option Clip) (parts : List String),
      processParts synth none parts =
        processParts synth none (parts.filter (fun p => !isMarkerPart p)) := by
  refine ⟨rfl, rfl, ?_⟩
  intro synth parts
  induction parts with
  | nil => rfl
  | cons p rest ih =>
    by_cases hm : isMarkerPart p = true
    · rw [List.filter_cons_of_neg (by simp [hm])]
      rw [processParts_marker_skip hm]
      exact ih
    · rw [List.filter_cons_of_pos (by simp [Bool.eq_false_iff.mpr hm])]
      simp only [processParts, ih]

/-- C10: `generate_podcast_audio` is a total function into `Option`: it
never lets an exception escape (every failing collaborator call is an
`Option`-valued oracle and the final `try/except` is the `exportMp3`
oracle's `none`), and it returns `None` exactly for the empty part list,
the empty clip list (no audio produced), or a failing export — so the
spec's two fatal conditions and any internal error all surface as the
same `None` at this interface. -/
theorem generatePodcastAudio_none_iff {σ : Type} (synth : String → Option Clip)
    (vig : Option Clip) (exportMp3 : Clip → Option σ) (script : String) :
    generatePodcastAudio synth vig exportMp3 script = none ↔
      (splitParts script = [] ∨
       processParts synth vig (splitParts script) = [] ∨
       exportMp3 (strippedCombined (processParts synth vig (splitParts script))) = none) := by
  simp only [generatePodcastAudio]
  split_ifs with h1 h2
  · simp [List.isEmpty_iff.mp h1]
  · simp [List.isEmpty_iff.mp h2]
  · rw [List.isEmpty_eq_true] at h1 h2
    constructor
    · intro h
      exact Or.inr (Or.inr h)
    · intro h
      rcases h with h | h | h
      · exact absurd h h1
      · exact absurd h h2
      · exact h

/-! ## Claim theorems: narration fallback (C3) -/

theorem strAppend_assoc (a b c : String) : a ++ b ++ c = a ++ (b ++ c) := by
  apply String.ext
  simp [String.data_append, List.append_assoc]

/-- Containment of a marker token in a text, as a substring. -/
def containsMarker (s marker : String) : Prop :=
  ∃ pre post : String, s = pre ++ marker ++ post

theorem stubScript_contains_markers (ctx : ScriptContext) (msg : String) :
    containsMarker (stubScript ctx msg) "[VINHETA DE ABERTURA]" ∧
    containsMarker (stubScript ctx msg) "[VINHETA DE TRANSIÇÃO]" ∧
    containsMarker (stubScript ctx msg) "[VINHETA DE ENCERRAMENTO]" := by
  refine ⟨⟨stubSeg1,
      stubSeg2 ctx msg ++ "[VINHETA DE TRANSIÇÃO]" ++ stubSeg3 ctx ++
        "[VINHETA DE ENCERRAMENTO]" ++ stubSeg4 ctx msg, ?_⟩,
    ⟨stubSeg1 ++ "[VINHETA DE ABERTURA]" ++ stubSeg2 ctx msg,
      stubSeg3 ctx ++ "[VINHETA DE ENCERRAMENTO]" ++ stubSeg4 ctx msg, ?_⟩,
    ⟨stubSeg1 ++ "[VINHETA DE ABERTURA]" ++ stubSeg2 ctx msg ++
        "[VINHETA DE TRANSIÇÃO]" ++ stubSeg3 ctx, stubSeg4 ctx msg, ?_⟩⟩ <;>
  simp only [stubScript, strAppend_assoc]

/-- C3: every failure mode of script generation — a safety block with no
candidates, a blocked-prompt or stopped-candidate exception, a network
error, a rate limit, an invalid credential or any other exception
(both routed through the generic handler), and a missing API key —
returns the locally generated stub narration rather than propagating the
failure, and the stub carries the same three bracketed cue markers as
real narration. -/
theorem generatePodcastScript_fallback (ctx : ScriptContext)
    (level : ComplexityLevel) (apiKeyPresent : Bool) (outcome : GenOutcome)
    (h : isGenFailure apiKeyPresent outcome = true) :
    ∃ msg, generatePodcastScript ctx level apiKeyPresent outcome = stubScript ctx msg ∧
      containsMarker (stubScript ctx msg) "[VINHETA DE ABERTURA]" ∧
      containsMarker (stubScript ctx msg) "[VINHETA DE TRANSIÇÃO]" ∧
      containsMarker (stubScript ctx msg) "[VINHETA DE ENCERRAMENTO]" := by
  cases apiKeyPresent with
  | false =>
    exact ⟨stubDefaultError, rfl, stubScript_contains_markers ctx _⟩
  | true =>
    cases outcome with
    | success t =>
      simp [isGenFailure] at h
    | blockedNoCandidates reason =>
      exact ⟨_, rfl, stubScript_contains_markers ctx _⟩
    | blockedPromptException =>
      exact ⟨_, rfl, stubScript_contains_markers ctx _⟩
    | stopCandidateException =>
      exact ⟨_, rfl, stubScript_contains_markers ctx _⟩
    | requestException msg =>
      exact ⟨_, rfl, stubScript_contains_markers ctx _⟩
    | otherException msg =>
      exact ⟨_, rfl, stubScript_contains_markers ctx _⟩

/-- C3 witness: a concrete rate-limit failure falls back to the stub. -/
theorem generatePodcastScript_fallback_witness :
    ∃ msg, generatePodcastScript
        ⟨"titulo", "dono", "Python", "descricao", "http://repo", "gemini-x"⟩
        .medium true (.otherException "429 quota") = stubScript
        ⟨"titulo", "dono", "Python", "descricao", "http://repo", "gemini-x"⟩ msg ∧
      containsMarker (stubScript
        ⟨"titulo", "dono", "Python", "descricao", "http://repo", "gemini-x"⟩ msg)
        "[VINHETA DE ABERTURA]" ∧
      containsMarker (stubScript
        ⟨"titulo", "dono", "Python", "descricao", "http://repo", "gemini-x"⟩ msg)
        "[VINHETA DE TRANSIÇÃO]" ∧
      containsMarker (stubScript
        ⟨"titulo", "dono", "Python", "descricao", "http://repo", "gemini-x"⟩ msg)
        "[VINHETA DE ENCERRAMENTO]" :=
  generatePodcastScript_fallback _ .medium true (.otherException "429 quota") (by decide)

/-! ## Sanitization idempotence analysis (C6)

The pipeline is NOT idempotent (counterexample below); the invariants
proved here show exactly which steps always fix already-sanitized text,
reducing idempotence to the once-sanitized text being a fixpoint of the
five rewrite steps that can re-fire (speaker label, emphasis, heading,
bullet, link). -/

/-- Every whitespace character of `l` is a plain space. -/
def onlyPlainWs (l : List Char) : Prop := ∀ c ∈ l, isPyWs c = true → c = ' '

/-- No two adjacent whitespace characters. -/
def noDoubleWs : List Char → Prop
  | a :: b :: rest => ¬(isPyWs a = true ∧ isPyWs b = true) ∧ noDoubleWs (b :: rest)
  | _ => True

/-- No whitespace character immediately followed by sentence punctuation. -/
def noWsPunct : List Char → Prop
  | a :: b :: rest => ¬(isPyWs a = true ∧ isPunctTTS b = true) ∧ noWsPunct (b :: rest)
  | _ => True

/-- The string neither starts nor ends with whitespace. -/
def strippedEnds (l : List Char) : Prop :=
  (∀ c, l.head? = some c → isPyWs c = false) ∧
  (∀ c, l.getLast? = some c → isPyWs c = false)

theorem isPunctTTS_not_ws {c : Char} (h : isPunctTTS c = true) : isPyWs c = false := by
  simp only [isPunctTTS, Bool.or_eq_true, decide_eq_true_eq] at h
  rcases h with ⟨⟨⟨rfl | rfl⟩ | rfl⟩ | rfl⟩ | rfl <;> decide

theorem noDoubleWs_tail {a : Char} {l : List Char} (h : noDoubleWs (a :: l)) :
    noDoubleWs l := by
  cases l with
  | nil => trivial
  | cons b t => exact h.2

theorem noWsPunct_tail {a : Char} {l : List Char} (h : noWsPunct (a :: l)) :
    noWsPunct l := by
  cases l with
  | nil => trivial
  | cons b t => exact h.2

theorem noDoubleWs_cons {a : Char} {l : List Char}
    (hhead : ∀ b, l.head? = some b → ¬(isPyWs a = true ∧ isPyWs b = true))
    (h : noDoubleWs l) : noDoubleWs (a :: l) := by
  cases l with
  | nil => trivial
  | cons b t => exact ⟨hhead b rfl, h⟩

theorem noWsPunct_cons {a : Char} {l : List Char}
    (hhead : ∀ b, l.head? = some b → ¬(isPyWs a = true ∧ isPunctTTS b = true))
    (h : noWsPunct l) : noWsPunct (a :: l) := by
  cases l with
  | nil => trivial
  | cons b t => exact ⟨hhead b rfl, h⟩

/-- Character provenance of `collapseWs`: every output character is a
non-whitespace input character or a plain space. -/
theorem collapseWs_chars : ∀ l : List Char, ∀ c ∈ collapseWs l,
    (c ∈ l ∧ isPyWs c = false) ∨ c = ' '
  | [] => by simp [collapseWs]
  | [a] => by
    intro c hc
    simp only [collapseWs] at hc
    split at hc
    · simp only [List.mem_singleton] at hc
      right
      exact hc
    · next hne =>
      simp only [List.mem_singleton] at hc
      subst hc
      left
      exact ⟨List.mem_singleton_self _, by simpa using hne⟩
  | a :: b :: rest => by
    intro c hc
    simp only [collapseWs] at hc
    split at hc
    · rcases collapseWs_chars (b :: rest) c hc with ⟨hm, hw⟩ | hsp
      · exact Or.inl ⟨List.mem_cons_of_mem _ hm, hw⟩
      · exact Or.inr hsp
    · split at hc
      · rcases List.mem_cons.mp hc with rfl | hc2
        · exact Or.inr rfl
        · rcases collapseWs_chars (b :: rest) c hc2 with ⟨hm, hw⟩ | hsp
          · exact Or.inl ⟨List.mem_cons_of_mem _ hm, hw⟩
          · exact Or.inr hsp
      · next h1 h2 =>
        rcases List.mem_cons.mp hc with rfl | hc2
        · left
          refine ⟨List.mem_cons_self _ _, ?_⟩
          simpa using h2
        · rcases collapseWs_chars (b :: rest) c hc2 with ⟨hm, hw⟩ | hsp
          · exact Or.inl ⟨List.mem_cons_of_mem _ hm, hw⟩
          · exact Or.inr hsp

theorem collapseWs_onlyPlainWs (l : List Char) : onlyPlainWs (collapseWs l) := by
  intro c hc hw
  rcases collapseWs_chars l c hc with ⟨-, hnw⟩ | hsp
  · rw [hw] at hnw
    cases hnw
  · exact hsp

/-- Head of `collapseWs` on a non-whitespace head is that head. -/
theorem collapseWs_head {a : Char} (l : List Char) (h : isPyWs a = false) :
    (collapseWs (a :: l)).head? = some a := by
  cases l with
  | nil =>
    simp only [collapseWs]
    rw [if_neg (by simp [h])]
    rfl
  | cons b t =>
    simp only [collapseWs]
    rw [if_neg (by simp [h]), if_neg (by simp [h])]
    rfl

theorem collapseWs_noDoubleWs : ∀ l : List Char, noDoubleWs (collapseWs l)
  | [] => by simp [collapseWs]; trivial
  | [a] => by
    simp only [collapseWs]
    split <;> trivial
  | a :: b :: rest => by
    simp only [collapseWs]
    split
    · exact collapseWs_noDoubleWs (b :: rest)
    · split
      · next h1 h2 =>
        apply noDoubleWs_cons ?_ (collapseWs_noDoubleWs (b :: rest))
        intro x hx hcontra
        have hbw : isPyWs b = false := by
          cases hb : isPyWs b
          · rfl
          · exact absurd (by simp [h2, hb]) h1
        rw [collapseWs_head rest hbw] at hx
        rw [Option.some.injEq] at hx
        subst hx
        rw [hbw] at hcontra
        exact absurd hcontra.2 (by simp)
      · next h1 h2 =>
        apply noDoubleWs_cons ?_ (collapseWs_noDoubleWs (b :: rest))
        intro x hx hcontra
        have haw : isPyWs a = false := by
          cases ha : isPyWs a
          · rfl
          · exact absurd ha h2
        rw [haw] at hcontra
        exact absurd hcontra.1 (by simp)

theorem mem_of_pyStrip {l : List Char} {c : Char} (h : c ∈ pyStrip l) : c ∈ l := by
  unfold pyStrip at h
  rw [List.mem_reverse] at h
  have h2 := (List.dropWhile_sublist _).mem h
  rw [List.mem_reverse] at h2
  exact (List.dropWhile_sublist _).mem h2

theorem pyStrip_onlyPlainWs {l : List Char} (h : onlyPlainWs l) :
    onlyPlainWs (pyStrip l) :=
  fun c hc hw => h c (mem_of_pyStrip hc) hw

theorem noDoubleWs_append_right : ∀ (p l : List Char), noDoubleWs (p ++ l) → noDoubleWs l
  | [], l, h => h
  | [a], l, h => noDoubleWs_tail (l := l) h
  | a :: b :: rest, l, h => noDoubleWs_append_right (b :: rest) l h.2

theorem noDoubleWs_append_left : ∀ (p l : List Char), noDoubleWs (p ++ l) → noDoubleWs p
  | [], _, _ => trivial
  | [a], _, _ => trivial
  | a :: b :: rest, l, h => by
    refine ⟨h.1, noDoubleWs_append_left (b :: rest) l h.2⟩

theorem noDoubleWs_of_suffix {l s : List Char} (hs : s <:+ l) (h : noDoubleWs l) :
    noDoubleWs s := by
  obtain ⟨p, hp⟩ := hs
  subst hp
  exact noDoubleWs_append_right p s h

theorem noDoubleWs_of_prefix {l s : List Char} (hs : s <+: l) (h : noDoubleWs l) :
    noDoubleWs s := by
  obtain ⟨p, hp⟩ := hs
  subst hp
  exact noDoubleWs_append_left s p h

theorem pyStrip_noDoubleWs {l : List Char} (h : noDoubleWs l) :
    noDoubleWs (pyStrip l) := by
  unfold pyStrip
  have h1 : noDoubleWs (l.dropWhile isPyWs) :=
    noDoubleWs_of_suffix (List.dropWhile_suffix _) h
  have h2 : ((l.dropWhile isPyWs).reverse.dropWhile isPyWs).reverse <+: l.dropWhile isPyWs := by
    have h3 := (List.reverse_prefix).mpr
      (List.dropWhile_suffix (l := (l.dropWhile isPyWs).reverse) isPyWs)
    rwa [List.reverse_reverse] at h3
  exact noDoubleWs_of_prefix h2 h1

theorem head_dropWhile_not (p : Char → Bool) :
    ∀ (l : List Char) (c : Char), (l.dropWhile p).head? = some c → p c = false
  | [], c, h => by simp [List.dropWhile] at h
  | a :: rest, c, h => by
    rw [List.dropWhile_cons] at h
    split at h
    · exact head_dropWhile_not p rest c h
    · next hpa =>
      rw [List.head?_cons, Option.some.injEq] at h
      subst h
      cases hpc : p a
      · rfl
      · exact absurd hpc hpa

theorem pyStrip_strippedEnds (l : List Char) : strippedEnds (pyStrip l) := by
  constructor
  · intro c hc
    unfold pyStrip at hc
    have hpre : ((l.dropWhile isPyWs).reverse.dropWhile isPyWs).reverse <+:
        l.dropWhile isPyWs := by
      have h3 := (List.reverse_prefix).mpr
        (List.dropWhile_suffix (l := (l.dropWhile isPyWs).reverse) isPyWs)
      rwa [List.reverse_reverse] at h3
    obtain ⟨q, hq⟩ := hpre
    rcases hres : ((l.dropWhile isPyWs).reverse.dropWhile isPyWs).reverse with _ | ⟨a, t⟩
    · rw [hres] at hc
      simp at hc
    · rw [hres] at hc hq
      rw [List.head?_cons, Option.some.injEq] at hc
      subst hc
      apply head_dropWhile_not isPyWs l
      rw [← hq]
      rfl
  · intro c hc
    unfold pyStrip at hc
    rw [List.getLast?_reverse] at hc
    exact head_dropWhile_not isPyWs _ c hc

theorem dropWhile_eq_self_of_head {p : Char → Bool} {l : List Char}
    (h : ∀ c, l.head? = some c → p c = false) : l.dropWhile p = l := by
  cases l with
  | nil => rfl
  | cons a rest =>
    rw [List.dropWhile_cons, if_neg (by simp [h a rfl])]

theorem pyStrip_eq_self {l : List Char} (h : strippedEnds l) : pyStrip l = l := by
  unfold pyStrip
  rw [dropWhile_eq_self_of_head h.1]
  rw [dropWhile_eq_self_of_head (by
    intro c hc
    rw [← List.getLast?_reverse] at hc
    exact h.2 c (by simpa using hc))]
  exact List.reverse_reverse l

theorem collapseWs_eq_self : ∀ {l : List Char}, onlyPlainWs l → noDoubleWs l →
    collapseWs l = l
  | [], _, _ => rfl
  | [a], h1, _ => by
    simp only [collapseWs]
    split
    · next hw =>
      have := h1 a (List.mem_singleton_self a) hw
      rw [this]
    · rfl
  | a :: b :: rest, h1, h2 => by
    simp only [collapseWs]
    rw [if_neg (by
      intro hcontra
      rw [Bool.and_eq_true] at hcontra
      exact h2.1 ⟨hcontra.1, hcontra.2⟩)]
    have h1t : onlyPlainWs (b :: rest) := fun c hc hw => h1 c (List.mem_cons_of_mem _ hc) hw
    split
    · next hw =>
      have ha := h1 a (List.mem_cons_self _ _) hw
      rw [collapseWs_eq_self h1t h2.2, ha]
    · rw [collapseWs_eq_self h1t h2.2]

theorem stepJScan_eq_self : ∀ {l : List Char}, noWsPunct l → stepJScan l = l
  | [], _ => rfl
  | [c], _ => rfl
  | a :: b :: rest, h => by
    simp only [stepJScan]
    rw [if_neg (by
      intro hcontra
      rw [Bool.and_eq_true] at hcontra
      exact h.1 ⟨hcontra.1, hcontra.2⟩)]
    rw [stepJScan_eq_self h.2]


theorem stepJScan_subset : ∀ l : List Char, ∀ c ∈ stepJScan l, c ∈ l
  | [] => by simp [stepJScan]
  | [a] => by simp [stepJScan]
  | a :: b :: rest => by
    intro c hc
    simp only [stepJScan] at hc
    split at hc
    · rcases List.mem_cons.mp hc with rfl | hc2
      · exact List.mem_cons_of_mem _ (List.mem_cons_self _ _)
      · exact List.mem_cons_of_mem _ (List.mem_cons_of_mem _ (stepJScan_subset rest c hc2))
    · rcases List.mem_cons.mp hc with rfl | hc2
      · exact List.mem_cons_self _ _
      · exact List.mem_cons_of_mem _ (stepJScan_subset (b :: rest) c hc2)

theorem stepJScan_ne_nil : ∀ {l : List Char}, l ≠ [] → stepJScan l ≠ []
  | [], h => absurd rfl h
  | [a], _ => by simp [stepJScan]
  | a :: b :: rest, _ => by
    simp only [stepJScan]
    split <;> simp

theorem stepJScan_head : ∀ (b : Char) (rest : List Char), isPyWs b = false →
    (stepJScan (b :: rest)).head? = some b
  | b, [], _ => rfl
  | b, c :: t, h => by
    simp only [stepJScan]
    rw [if_neg (by simp [h])]
    rfl

theorem stepJScan_last : ∀ l : List Char,
    (∀ c, l.getLast? = some c → isPyWs c = false) →
    ∀ c, (stepJScan l).getLast? = some c → isPyWs c = false
  | [], h => by
    intro c hc
    simp [stepJScan] at hc
  | [a], h => fun c hc => h c hc
  | a :: b :: rest, h => by
    intro c hc
    simp only [stepJScan] at hc
    split at hc
    · next hcond =>
      cases hrest : rest with
      | nil =>
        subst hrest
        simp only [stepJScan, List.getLast?_singleton, Option.some.injEq] at hc
        subst hc
        rw [Bool.and_eq_true] at hcond
        exact isPunctTTS_not_ws hcond.2
      | cons x xs =>
        subst hrest
        have hne : stepJScan (x :: xs) ≠ [] := stepJScan_ne_nil (by simp)
        obtain ⟨y, ys, hys⟩ := List.exists_cons_of_ne_nil hne
        rw [hys, List.getLast?_cons_cons] at hc
        rw [← hys] at hc
        apply stepJScan_last (x :: xs) ?_ c hc
        intro d hd
        apply h d
        rw [List.getLast?_cons_cons, List.getLast?_cons_cons]
        exact hd
    · have hne : stepJScan (b :: rest) ≠ [] := stepJScan_ne_nil (by simp)
      obtain ⟨y, ys, hys⟩ := List.exists_cons_of_ne_nil hne
      rw [hys, List.getLast?_cons_cons] at hc
      rw [← hys] at hc
      apply stepJScan_last (b :: rest) ?_ c hc
      intro d hd
      apply h d
      rw [List.getLast?_cons_cons]
      exact hd

theorem stepJScan_forms : ∀ l : List Char, noDoubleWs l →
    noDoubleWs (stepJScan l) ∧ noWsPunct (stepJScan l)
  | [], _ => ⟨trivial, trivial⟩
  | [c], _ => ⟨trivial, trivial⟩
  | a :: b :: rest, h => by
    simp only [stepJScan]
    split
    · next hcond =>
      rw [Bool.and_eq_true] at hcond
      have hbw : isPyWs b = false := isPunctTTS_not_ws hcond.2
      obtain ⟨ih_nd, ih_np⟩ := stepJScan_forms rest (noDoubleWs_tail h.2)
      constructor
      · apply noDoubleWs_cons ?_ ih_nd
        intro x hx hc
        rw [hbw] at hc
        exact absurd hc.1 (by simp)
      · apply noWsPunct_cons ?_ ih_np
        intro x hx hc
        rw [hbw] at hc
        exact absurd hc.1 (by simp)
    · next hcond =>
      obtain ⟨ih_nd, ih_np⟩ := stepJScan_forms (b :: rest) h.2
      have hbranch : ¬(isPyWs a = true ∧ isPunctTTS b = true) := by
        intro hcc
        exact hcond (by rw [Bool.and_eq_true]; exact hcc)
      constructor
      · apply noDoubleWs_cons ?_ ih_nd
        intro x hx hc
        cases hb : isPyWs b
        · rw [stepJScan_head b rest hb, Option.some.injEq] at hx
          subst hx
          rw [hb] at hc
          exact absurd hc.2 (by simp)
        · exact h.1 ⟨hc.1, hb⟩
      · apply noWsPunct_cons ?_ ih_np
        intro x hx hc
        cases hb : isPyWs b
        · rw [stepJScan_head b rest hb, Option.some.injEq] at hx
          subst hx
          exact hbranch ⟨hc.1, hc.2⟩
        · exact h.1 ⟨hc.1, hb⟩


theorem matchHeading_mem {cs : List Char} {b : Bool} {r : List Char}
    (h : matchHeading cs = some (b, r)) : ∀ c ∈ r, c ∈ cs := by
  simp only [matchHeading] at h
  split at h
  · split at h
    · exact absurd h (by simp)
    · rw [Option.some.injEq, Prod.mk.injEq] at h
      intro c hc
      rw [← h.2] at hc
      have h1 := (List.dropWhile_sublist _).mem hc
      have h2 := (List.dropWhile_sublist _).mem h1
      exact (List.dropWhile_sublist _).mem h2
  · exact absurd h (by simp)

theorem matchBullet_mem {cs : List Char} {b : Bool} {r : List Char}
    (h : matchBullet cs = some (b, r)) : ∀ c ∈ r, c ∈ cs := by
  simp only [matchBullet] at h
  split at h
  · next x rest heq =>
    split at h
    · split at h
      · exact absurd h (by simp)
      · rw [Option.some.injEq, Prod.mk.injEq] at h
        intro c hc
        rw [← h.2] at hc
        have h1 := (List.dropWhile_sublist _).mem hc
        have h2 : c ∈ x :: rest := List.mem_cons_of_mem _ h1
        rw [← heq] at h2
        exact (List.dropWhile_sublist _).mem h2
    · exact absurd h (by simp)
  · exact absurd h (by simp)

theorem stepFGo_mem : ∀ (fuel : ℕ) (b : Bool) (l : List Char), ∀ c ∈ stepFGo fuel b l, c ∈ l
  | 0, _, [] => by intro c hc; exact absurd hc (List.not_mem_nil c)
  | 0, _, _ :: _ => by intro c hc; exact absurd hc (List.not_mem_nil c)
  | fuel + 1, b, [] => by intro c hc; exact absurd hc (List.not_mem_nil c)
  | fuel + 1, atStart, a :: rest => by
    intro c hc
    have hc2 : c ∈ (if atStart then
        match matchHeading (a :: rest) with
        | some (b, r) => stepFGo fuel b r
        | none => a :: stepFGo fuel (a == '\n') rest
      else a :: stepFGo fuel (a == '\n') rest) := hc
    split at hc2
    · split at hc2
      · next b2 r heq =>
        exact matchHeading_mem heq c (stepFGo_mem fuel b2 r c hc2)
      · rcases List.mem_cons.mp hc2 with rfl | hc3
        · exact List.mem_cons_self _ _
        · exact List.mem_cons_of_mem _ (stepFGo_mem fuel _ rest c hc3)
    · rcases List.mem_cons.mp hc2 with rfl | hc3
      · exact List.mem_cons_self _ _
      · exact List.mem_cons_of_mem _ (stepFGo_mem fuel _ rest c hc3)

theorem stepGGo_mem : ∀ (fuel : ℕ) (b : Bool) (l : List Char), ∀ c ∈ stepGGo fuel b l, c ∈ l
  | 0, _, [] => by intro c hc; exact absurd hc (List.not_mem_nil c)
  | 0, _, _ :: _ => by intro c hc; exact absurd hc (List.not_mem_nil c)
  | fuel + 1, b, [] => by intro c hc; exact absurd hc (List.not_mem_nil c)
  | fuel + 1, atStart, a :: rest => by
    intro c hc
    have hc2 : c ∈ (if atStart then
        match matchBullet (a :: rest) with
        | some (b, r) => stepGGo fuel b r
        | none => a :: stepGGo fuel (a == '\n') rest
      else a :: stepGGo fuel (a == '\n') rest) := hc
    split at hc2
    · split at hc2
      · next b2 r heq =>
        exact matchBullet_mem heq c (stepGGo_mem fuel b2 r c hc2)
      · rcases List.mem_cons.mp hc2 with rfl | hc3
        · exact List.mem_cons_self _ _
        · exact List.mem_cons_of_mem _ (stepGGo_mem fuel _ rest c hc3)
    · rcases List.mem_cons.mp hc2 with rfl | hc3
      · exact List.mem_cons_self _ _
      · exact List.mem_cons_of_mem _ (stepGGo_mem fuel _ rest c hc3)

theorem stepHGo_mem : ∀ (fuel : ℕ) (l : List Char), ∀ c ∈ stepHGo fuel l, c ∈ l
  | 0, [] => by intro c hc; exact absurd hc (List.not_mem_nil c)
  | 0, _ :: _ => by intro c hc; exact absurd hc (List.not_mem_nil c)
  | fuel + 1, [] => by intro c hc; exact absurd hc (List.not_mem_nil c)
  | fuel + 1, a :: rest => by
    intro c hc
    have hc2 : c ∈ (if a = '[' then
        match findDelim [']', '('] rest with
        | some (label, r1) =>
          match findDelim [')'] r1 with
          | some (_, r2) => label ++ stepHGo fuel r2
          | none => a :: stepHGo fuel rest
        | none => a :: stepHGo fuel rest
      else a :: stepHGo fuel rest) := hc
    split at hc2
    · split at hc2
      · next label r1 heq =>
        split at hc2
        · next u r2 heq2 =>
          rcases List.mem_append.mp hc2 with hlab | hrec
          · exact List.mem_cons_of_mem _ ((findDelim_mem heq).1 c hlab)
          · have h1 := stepHGo_mem fuel r2 c hrec
            have h2 := (findDelim_mem heq2).2 c h1
            exact List.mem_cons_of_mem _ ((findDelim_mem heq).2 c h2)
        · rcases List.mem_cons.mp hc2 with rfl | hc3
          · exact List.mem_cons_self _ _
          · exact List.mem_cons_of_mem _ (stepHGo_mem fuel rest c hc3)
      · rcases List.mem_cons.mp hc2 with rfl | hc3
        · exact List.mem_cons_self _ _
        · exact List.mem_cons_of_mem _ (stepHGo_mem fuel rest c hc3)
    · rcases List.mem_cons.mp hc2 with rfl | hc3
      · exact List.mem_cons_self _ _
      · exact List.mem_cons_of_mem _ (stepHGo_mem fuel rest c hc3)

theorem stepE_no_backtick (l : List Char) : '\x60' ∉ stepE l := by
  intro hc
  have := List.of_mem_filter hc
  simp at this

/-- A backtick never survives sanitization: step (e) removes them all and
every later step only emits input characters or plain spaces. -/
theorem sanitize_no_backtick (l : List Char) : '\x60' ∉ sanitizeChars l := by
  intro hmem
  have h1 := stepJScan_subset _ _ hmem
  have h2 := mem_of_pyStrip h1
  rcases collapseWs_chars _ _ h2 with ⟨h3, -⟩ | hsp
  · have h4 := stepHGo_mem _ _ _ h3
    have h5 := stepGGo_mem _ _ _ _ h4
    have h6 := stepFGo_mem _ _ _ _ h5
    exact stepE_no_backtick _ h6
  · exact absurd hsp (by decide)

theorem dropFooter_eq_self : ∀ {l : List Char}, (∀ c ∈ l, c ≠ '\n') → dropFooter l = l
  | [], _ => rfl
  | c :: rest, h => by
    simp only [dropFooter]
    rw [if_neg ?_]
    · rw [dropFooter_eq_self (fun d hd => h d (List.mem_cons_of_mem _ hd))]
    · rintro ⟨hc1, hc2⟩
      have hmem : '\n' ∈ rest.take 3 := by
        rw [hc2]
        simp
      exact h '\n' (List.mem_cons_of_mem _ ((List.take_sublist _ _).mem hmem)) rfl

theorem splitlinesGo_no_term : ∀ (fuel : ℕ) (cur l : List Char), l.length ≤ fuel →
    (∀ c ∈ l, isLineTerm c = false) → splitlinesGo fuel cur l = [cur.reverse ++ l]
  | 0, cur, l, hf, _ => by
    have : l = [] := List.length_eq_zero.mp (Nat.le_zero.mp hf)
    subst this
    simp [splitlinesGo]
  | fuel + 1, cur, [], _, _ => by simp [splitlinesGo]
  | fuel + 1, cur, c :: rest, hf, h => by
    simp only [splitlinesGo]
    rw [if_neg (by simp [h c (List.mem_cons_self _ _)])]
    rw [splitlinesGo_no_term fuel (c :: cur) rest
      (by simpa [Nat.succ_le_succ_iff] using hf)
      (fun d hd => h d (List.mem_cons_of_mem _ hd))]
    simp

theorem lineTerm_is_ws {c : Char} (h : isLineTerm c = true) : isPyWs c = true := by
  simp only [isLineTerm, Bool.or_eq_true, decide_eq_true_eq] at h
  rcases h with ⟨⟨⟨⟨⟨⟨⟨⟨h | h⟩ | h⟩ | h⟩ | h⟩ | h⟩ | h⟩ | h⟩ | h⟩ | h <;>
    subst h <;> decide

theorem phase1_eq_self {l : List Char} (h1 : onlyPlainWs l) (h2 : strippedEnds l) :
    phase1 l = l := by
  have hnl : ∀ c ∈ l, c ≠ '\n' := by
    intro c hc hn
    subst hn
    have := h1 '\n' hc (by decide)
    cases this
  have hterm : ∀ c ∈ l, isLineTerm c = false := by
    intro c hc
    cases hlt : isLineTerm c
    · rfl
    · have hws := lineTerm_is_ws hlt
      have heq := h1 c hc hws
      subst heq
      cases hlt
  unfold phase1
  rw [dropFooter_eq_self hnl, pyStrip_eq_self h2]
  cases hl : l with
  | nil => rfl
  | cons a rest =>
    rw [← hl]
    unfold pySplitlines
    rw [if_neg (by simp [hl])]
    rw [splitlinesGo_no_term l.length [] l le_rfl hterm]
    have hkeep : (pyStrip l).isEmpty = false := by
      rw [pyStrip_eq_self h2, hl]
      rfl
    simp only [List.reverse_nil, List.nil_append, List.filter_cons, hkeep]
    simp [joinWithNewline]


theorem stepE_eq_self {l : List Char} (h : '\x60' ∉ l) : stepE l = l := by
  unfold stepE
  rw [List.filter_eq_self]
  intro a ha
  simp only [ne_eq, decide_eq_true_eq]
  rintro rfl
  exact h ha

theorem phase2_tail_form (x : List Char) :
    onlyPlainWs (stepJScan (pyStrip (collapseWs x))) ∧
    noDoubleWs (stepJScan (pyStrip (collapseWs x))) ∧
    noWsPunct (stepJScan (pyStrip (collapseWs x))) ∧
    strippedEnds (stepJScan (pyStrip (collapseWs x))) := by
  have hy1 := pyStrip_onlyPlainWs (collapseWs_onlyPlainWs x)
  have hy2 := pyStrip_noDoubleWs (collapseWs_noDoubleWs x)
  have hy3 := pyStrip_strippedEnds (collapseWs x)
  obtain ⟨hj1, hj2⟩ := stepJScan_forms _ hy2
  refine ⟨fun c hc hw => hy1 c (stepJScan_subset _ c hc) hw, hj1, hj2, ?_, ?_⟩
  · intro c hc
    cases hY : pyStrip (collapseWs x) with
    | nil =>
      rw [hY] at hc
      simp [stepJScan] at hc
    | cons b rest =>
      have hb : isPyWs b = false := hy3.1 b (by simp [hY])
      rw [hY, stepJScan_head b rest hb, Option.some.injEq] at hc
      subst hc
      exact hb
  · intro c hc
    exact stepJScan_last _ hy3.2 c hc

/-- The output of full sanitization has only plain spaces as whitespace,
never two adjacent whitespace characters, no whitespace directly before
sentence punctuation, and non-whitespace first and last characters. -/
theorem sanitize_form (t : List Char) :
    onlyPlainWs (sanitizeChars t) ∧ noDoubleWs (sanitizeChars t) ∧
    noWsPunct (sanitizeChars t) ∧ strippedEnds (sanitizeChars t) :=
  phase2_tail_form _

theorem phase2_eq_self {s : List Char}
    (h1 : onlyPlainWs s) (h2 : noDoubleWs s) (h3 : noWsPunct s)
    (h4 : strippedEnds s) (hB : '\x60' ∉ s)
    (hC : stepC s = s) (hD : stepDScan s = s) (hF : stepF s = s)
    (hG : stepG s = s) (hH : stepHScan s = s) :
    sanitizeChars s = s := by
  have hE : stepE s = s := stepE_eq_self hB
  show phase2 (phase1 s) = s
  rw [phase1_eq_self h1 h4]
  show stepJScan (pyStrip (collapseWs (stepHScan (stepG (stepF (stepE
    (stepDScan (stepC s)))))))) = s
  rw [hC, hD, hE, hF, hG, hH, collapseWs_eq_self h1 h2, pyStrip_eq_self h4,
    stepJScan_eq_self h3]

set_option linter.constructorNameAsVariable false in
/-- C6 (amended): sanitization applied twice equals sanitization applied
once, for every text whose sanitized form is left unchanged by the
speaker-label, emphasis, heading, bullet and link substitutions.  (The
whitespace, strip, backtick, line-filter and punctuation steps always fix
sanitized output, so only these five substitutions can break idempotence —
and they can, see the counterexample.) -/
theorem sanitizeChars_idempotent_of_fixed (t s : List Char)
    (hs : sanitizeChars t = s)
    (hC : stepC s = s) (hD : stepDScan s = s) (hF : stepF s = s)
    (hG : stepG s = s) (hH : stepHScan s = s) :
    sanitizeChars (sanitizeChars t) = sanitizeChars t := by
  obtain ⟨h1, h2, h3, h4⟩ := sanitize_form t
  have hB := sanitize_no_backtick t
  rw [hs] at h1 h2 h3 h4 hB ⊢
  exact phase2_eq_self h1 h2 h3 h4 hB hC hD hF hG hH

/-- C6 counterexample: sanitization is not idempotent in general.  The
text `*LOCUTOR:* hi` sanitizes to `LOCUTOR: hi` (the single-star emphasis
closes around the label, so the speaker-label pattern does not fire), and
sanitizing again now strips the freshly exposed `LOCUTOR:` label. -/
theorem sanitizeText_not_idempotent :
    sanitizeText (sanitizeText (String.mk ['*', 'L', 'O', 'C', 'U', 'T', 'O', 'R',
      ':', '*', ' ', 'h', 'i'])) ≠
    sanitizeText (String.mk ['*', 'L', 'O', 'C', 'U', 'T', 'O', 'R',
      ':', '*', ' ', 'h', 'i']) := by
  decide

theorem sanitizeChars_idempotent_of_fixed_witness :
    sanitizeChars (sanitizeChars ['O', 'l', 'a', ' ', 'm', 'u', 'n', 'd', 'o', '!']) =
      sanitizeChars ['O', 'l', 'a', ' ', 'm', 'u', 'n', 'd', 'o', '!'] :=
  sanitizeChars_idempotent_of_fixed
    ['O', 'l', 'a', ' ', 'm', 'u', 'n', 'd', 'o', '!']
    ['O', 'l', 'a', ' ', 'm', 'u', 'n', 'd', 'o', '!']
    (by decide) (by decide) (by decide) (by decide) (by decide) (by decide)

